import Mathlib

/-
Verification development for the access repository.

Shallow embedding of:
  * plugins/conditional_access/clients/yaml_aws_sso.py   (service matcher)
  * plugins/conditional_access/clients/pagerduty.py      (incident lookup, plugin variant)
  * examples/plugins/conditional_access_multipass/clients/pagerduty.py (multipass variant)
  * plugins/conditional_access/conditional_access.py     (decision engine; the decision
    logic of the multipass variant is line-for-line identical)
  * multipass_group_owners_sync.py                       (owner reconciliation)

External collaborators (HTTP, the SQL database session, YAML file loading) are
modelled as explicit environment records of pure functions; Python runtime
errors that the code can actually raise (UnboundLocalError on a name that was
never assigned, AttributeError on attribute access of None, SQLAlchemyError
from the store) are modelled with an explicit error type, so that control flow
on failure is represented faithfully.
-/

set_option maxRecDepth 10000

/-- Python runtime errors observable in the embedded code paths. -/
inductive PyErr where
  | unboundLocal (name : String)
  | attributeErrorOnNone (attr : String)
  | sqlAlchemyError
deriving DecidableEq, Repr

/-! ## Service matcher: clients/yaml_aws_sso.py

A `Service` is one YAML service mapping; every field that the code reads with
`dict.get` and a default is an `Option` here, the accessor functions below
reproduce the chained `.get(..., default)` lookups of the source. -/

/-- One policy block of a service entry (non_sensitive_access, system_owners or
emergency_access): `enabled`, `okta_groups`, `okta_users`, each optional in the
YAML. -/
structure PolicyBlock where
  enabled : Option Bool
  okta_groups : Option (List String)
  okta_users : Option (List String)
deriving DecidableEq, Repr

/-- The `auto_approval` sub-dictionary of `access_rules`. -/
structure AutoApproval where
  non_sensitive_access : Option PolicyBlock
  system_owners : Option PolicyBlock
deriving DecidableEq, Repr

/-- The `access_rules` dictionary of a service entry. -/
structure AccessRules where
  auto_approval : Option AutoApproval
  emergency_access : Option PolicyBlock
deriving DecidableEq, Repr

/-- One service entry of the catalog. -/
structure Service where
  okta_group_mapping : Option String
  hostname : Option String
  access_rules : Option AccessRules
deriving DecidableEq, Repr

def emptyPolicyBlock : PolicyBlock := ⟨none, none, none⟩

def emptyAutoApproval : AutoApproval := ⟨none, none⟩

def emptyAccessRules : AccessRules := ⟨none, none⟩

/-- yaml_service.get("access_rules", ...).get("auto_approval", ...) -/
def Service.autoApproval (s : Service) : AutoApproval :=
  (s.access_rules.getD emptyAccessRules).auto_approval.getD emptyAutoApproval

/-- ...get("non_sensitive_access", default empty dict) -/
def Service.nsaBlock (s : Service) : PolicyBlock :=
  s.autoApproval.non_sensitive_access.getD emptyPolicyBlock

/-- ...get("system_owners", default empty dict) -/
def Service.soBlock (s : Service) : PolicyBlock :=
  s.autoApproval.system_owners.getD emptyPolicyBlock

/-- yaml_service.get("access_rules", ...).get("emergency_access", default empty dict) -/
def Service.eaBlock (s : Service) : PolicyBlock :=
  (s.access_rules.getD emptyAccessRules).emergency_access.getD emptyPolicyBlock

def Service.nsaEnabled (s : Service) : Bool := s.nsaBlock.enabled.getD false
def Service.nsaGroups (s : Service) : List String := s.nsaBlock.okta_groups.getD []
def Service.nsaUsers (s : Service) : List String := s.nsaBlock.okta_users.getD []
def Service.soEnabled (s : Service) : Bool := s.soBlock.enabled.getD false
def Service.soGroups (s : Service) : List String := s.soBlock.okta_groups.getD []
def Service.soUsers (s : Service) : List String := s.soBlock.okta_users.getD []
def Service.eaEnabled (s : Service) : Bool := s.eaBlock.enabled.getD false
def Service.eaGroups (s : Service) : List String := s.eaBlock.okta_groups.getD []
def Service.eaUsers (s : Service) : List String := s.eaBlock.okta_users.getD []

/-- The two catalog families; `get_service_file_and_key` pairs each with its
fixed YAML file, so the key alone determines both components of the pair. -/
inductive ServiceKey where
  | aws_services
  | twingate_services
deriving DecidableEq, Repr

/-- One YAML document segment (`yaml.safe_load_all` yields several); each key is
read with `doc.get(service_key, [])`. -/
structure YamlDoc where
  aws_services : Option (List Service)
  twingate_services : Option (List Service)
deriving DecidableEq, Repr

def YamlDoc.servicesFor (d : YamlDoc) : ServiceKey → List Service
  | .aws_services => d.aws_services.getD []
  | .twingate_services => d.twingate_services.getD []

/-- The parsed contents of the two service YAML files (each a list of document
segments). -/
structure Catalog where
  aws_sso_file : List YamlDoc
  twingate_file : List YamlDoc
deriving DecidableEq, Repr

def Catalog.fileFor (c : Catalog) : ServiceKey → List YamlDoc
  | .aws_services => c.aws_sso_file
  | .twingate_services => c.twingate_file

/-- Python str.startswith, computed on the character lists. -/
def pyStartsWith (s pre : String) : Bool :=
  pre.data.isPrefixOf s.data

/-- get_service_file_and_key: classify by prefix; the file component of the
returned pair is determined by the key, an unrecognized prefix logs and returns
(None, None), modelled as `none`. -/
def get_service_file_and_key (target : String) : Option ServiceKey :=
  if pyStartsWith target "APP_AWS_SSO" then some .aws_services
  else if pyStartsWith target "APP_TG_" then some .twingate_services
  else none

/-- Characters after the first occurrence of `c`, or `none` when `c` is absent. -/
def charsAfterFirst (c : Char) : List Char → Option (List Char)
  | [] => none
  | x :: xs => if x = c then some xs else charsAfterFirst c xs

/-- Python `target.split("_", 2)[-1]`: the last element of a split limited to
two cuts, which is the remainder after the second underscore when there are at
least two, after the first when there is exactly one, and the whole string when
there is none. -/
def splitUnderscoreMax2Last (s : String) : String :=
  match charsAfterFirst '_' s.toList with
  | none => s
  | some r1 =>
    match charsAfterFirst '_' r1 with
    | none => String.mk r1
    | some r2 => String.mk r2

/-- The per-entry match test of find_first_matching_service: exact mapping-key
equality for the aws family, hostname equality with the split remainder for the
twingate family. -/
def matchesService (key : ServiceKey) (target : String) (s : Service) : Bool :=
  match key with
  | .aws_services => s.okta_group_mapping == some target
  | .twingate_services => splitUnderscoreMax2Last target == s.hostname.getD ""

/-- The nested loop of find_first_matching_service: first matching entry across
document segments in order. -/
def findInDocs (key : ServiceKey) (target : String) : List YamlDoc → Option Service
  | [] => none
  | d :: ds =>
    match (d.servicesFor key).find? (matchesService key target) with
    | some s => some s
    | none => findInDocs key target ds

/-- find_first_matching_service from clients/yaml_aws_sso.py. -/
def find_first_matching_service (c : Catalog) (target : String) : Option Service :=
  match get_service_file_and_key target with
  | none => none
  | some key => findInDocs key target (c.fileFor key)

/-! ## Incident lookup: clients/pagerduty.py (plugin and multipass variants)

HTTP is abstracted as an environment: `user_http uid` is the parsed body of
GET /users/uid (`none` models a requests.RequestException), `incidents_http uid`
is the parsed incident list of GET /incidents (`none` models a
requests.RequestException on that call). -/

/-- One element of incident["assignments"]: assignee summary and id. -/
structure Assignment where
  summary : String
  id : String
deriving DecidableEq, Repr

/-- One element of the /incidents response, with the fields the code reads. -/
structure RawIncident where
  id : Option String
  title : Option String
  html_url : Option String
  service_summary : Option String
  assignments : List Assignment
deriving DecidableEq, Repr

/-- The "user" object of the /users/id response body. -/
structure HttpUserResp where
  email : Option String
deriving DecidableEq, Repr

/-- The HTTP environment of the PagerDuty client. -/
structure PdEnv where
  user_http : String → Option HttpUserResp
  incidents_http : String → Option (List RawIncident)

/-- Python substring test `needle in hay` on strings. -/
def strContainsSub (hay needle : String) : Bool :=
  (List.range (hay.data.length + 1)).any
    (fun i => needle.data.isPrefixOf (hay.data.drop i))

/-- ASCII lowercasing of one character (the repository compares ASCII service
names and incident titles). -/
def pyCharLower (c : Char) : Char :=
  if c.toNat ≥ 65 ∧ c.toNat ≤ 90 then Char.ofNat (c.toNat + 32) else c

/-- Python str.lower, computed on the character list. -/
def strLower (s : String) : String :=
  String.mk (s.data.map pyCharLower)

/-- The incident filter of get_pd_user_incidents: the search string occurs
case-insensitively in the service summary or in the title. -/
def incidentMatches (search : String) (inc : RawIncident) : Bool :=
  strContainsSub (strLower (inc.service_summary.getD "")) (strLower search) ||
  strContainsSub (strLower (inc.title.getD "")) (strLower search)

/-- get_pd_user_email, multipass variant: a request failure or a falsy email
degrades to None. -/
def multipass_get_pd_user_email (env : PdEnv) (uid : String) : Option String :=
  match env.user_http uid with
  | none => none
  | some resp =>
    match resp.email with
    | none => none
    | some e => if e ≠ "" then some e else none

/-- The parse_incident dictionary built for each matching incident (multipass
variant: failed email resolutions appear as None entries). -/
structure ParsedIncident where
  incident_id : Option String
  incident_name : Option String
  incident_html_url : Option String
  incident_assignees : List (String × String)
  incident_assignees_by_email : List (Option String)
deriving DecidableEq, Repr

/-- The dictionary returned by get_pd_user_incidents; the
all_combined_assignees entry (a name-keyed dict) is not modelled, nothing in
the repository reads it. -/
structure IncidentsDict where
  matching_incidents : List ParsedIncident
  all_combined_assignees_by_email : List (Option String)
deriving DecidableEq, Repr

def multipass_parse_incident (env : PdEnv) (inc : RawIncident) : ParsedIncident :=
  { incident_id := inc.id
    incident_name := inc.title
    incident_html_url := inc.html_url
    incident_assignees := inc.assignments.map (fun a => (a.summary, a.id))
    incident_assignees_by_email :=
      inc.assignments.map (fun a => multipass_get_pd_user_email env a.id) }

/-- get_pd_user_incidents, multipass variant.  All three locals are initialized
to empty lists, so a failed /incidents request returns the empty dictionary;
the Python list(set(...)) de-duplication is modelled by List.dedup. -/
def multipass_get_pd_user_incidents (env : PdEnv) (user_id search : String) :
    IncidentsDict :=
  match env.incidents_http user_id with
  | none => { matching_incidents := [], all_combined_assignees_by_email := [] }
  | some incs =>
    let matching := (incs.filter (incidentMatches search)).map
      (multipass_parse_incident env)
    { matching_incidents := matching
      all_combined_assignees_by_email :=
        ((matching.map (·.incident_assignees_by_email)).flatten).dedup }

/-- The value the plugin variant of get_pd_user_email produces on its success
path: the email string, or the empty-list default of
response.json()["user"].get("email", []). -/
inductive EmailVal where
  | str (s : String)
  | emptyList
deriving DecidableEq, Repr

/-- get_pd_user_email, plugin variant: the except branch logs and then falls
through to `return user_email` with user_email never assigned, raising
UnboundLocalError. -/
def plugin_get_pd_user_email (env : PdEnv) (uid : String) : Except PyErr EmailVal :=
  match env.user_http uid with
  | none => .error (.unboundLocal "user_email")
  | some resp =>
    match resp.email with
    | none => .ok .emptyList
    | some e => .ok (.str e)

/-- parse_incident of the plugin variant (emails are EmailVal; an
UnboundLocalError from one resolution propagates). -/
structure PluginParsedIncident where
  incident_id : Option String
  incident_name : Option String
  incident_html_url : Option String
  incident_assignees : List (String × String)
  incident_assignees_by_email : List EmailVal
deriving DecidableEq, Repr

structure PluginIncidentsDict where
  matching_incidents : List PluginParsedIncident
  all_combined_assignees_by_email : List EmailVal
deriving DecidableEq, Repr

/-- The email list comprehension of the plugin parse, with error propagation. -/
def plugin_emails (env : PdEnv) : List Assignment → Except PyErr (List EmailVal)
  | [] => .ok []
  | a :: rest =>
    match plugin_get_pd_user_email env a.id with
    | .error e => .error e
    | .ok v =>
      match plugin_emails env rest with
      | .error e => .error e
      | .ok vs => .ok (v :: vs)

def plugin_parse_incident (env : PdEnv) (inc : RawIncident) :
    Except PyErr PluginParsedIncident :=
  match plugin_emails env inc.assignments with
  | .error e => .error e
  | .ok emails =>
    .ok { incident_id := inc.id
          incident_name := inc.title
          incident_html_url := inc.html_url
          incident_assignees := inc.assignments.map (fun a => (a.summary, a.id))
          incident_assignees_by_email := emails }

def plugin_parse_all (env : PdEnv) : List RawIncident →
    Except PyErr (List PluginParsedIncident)
  | [] => .ok []
  | inc :: rest =>
    match plugin_parse_incident env inc with
    | .error e => .error e
    | .ok p =>
      match plugin_parse_all env rest with
      | .error e => .error e
      | .ok ps => .ok (p :: ps)

/-- get_pd_user_incidents, plugin variant.  Only matching_incidents is
initialized; a failed /incidents request is caught but the final return then
reads the never-assigned all_assignees_across_incidents, raising
UnboundLocalError, and an UnboundLocalError from an email resolution is not a
RequestException, so it escapes the try block and propagates to the caller. -/
def plugin_get_pd_user_incidents (env : PdEnv) (user_id search : String) :
    Except PyErr PluginIncidentsDict :=
  match env.incidents_http user_id with
  | none => .error (.unboundLocal "all_assignees_across_incidents")
  | some incs =>
    match plugin_parse_all env (incs.filter (incidentMatches search)) with
    | .error e => .error e
    | .ok matching =>
      .ok { matching_incidents := matching
            all_combined_assignees_by_email :=
              ((matching.map (·.incident_assignees_by_email)).flatten).dedup }

/-! ## Decision engine: conditional_access.py access_request_created

The decision logic is identical in the plugin and the multipass variants (the
multipass variant additionally rejects ownership requests upstream, which does
not change the returned value).  The database and the PagerDuty client are
abstracted into an environment; get_group_by_name returns the list of
active_user_memberships member emails of the group, or none when no non-deleted
group of that name exists (query .first() returning None, so a subsequent
.active_user_memberships access raises AttributeError). -/

/-- The fields of AccessRequest the hook reads. -/
structure AccessRequest where
  request_ownership : Bool
  request_reason : String
  request_ending_at : Option Nat
deriving DecidableEq, Repr

/-- The fields of the requester OktaUser the hook reads. -/
structure Requester where
  username : String
  active_group_ownerships : List String
deriving DecidableEq, Repr

/-- The reason of each approval branch; pagerDutyIncidents carries the
matching-incidents list interpolated into the reason string. -/
inductive Reason where
  | groupAutoApproved
  | autoApprovedByTag
  | accessGroupOwner
  | nonSensitiveAccess
  | pagerDutyIncidents (incidents : List ParsedIncident)
  | systemOwners
deriving DecidableEq, Repr

/-- ConditionalAccessResponse from api.plugins. -/
structure ConditionalAccessResponse where
  approved : Bool
  reason : Reason
  ending_at : Option Nat
deriving DecidableEq, Repr

/-- The environment of the decision engine: the catalog files and the two
external lookups. -/
structure DecisionEnv where
  catalog : Catalog
  get_pd_user_id : String → Option String
  get_pd_user_incidents : String → String → IncidentsDict
  get_group_by_name : String → Option (List String)

/-- The outcome of one hook invocation: the returned value or the Python error
raised, together with the list of group names passed to get_group_by_name by
the policy-block member expansions, in call order. -/
structure EngineOut where
  result : Except PyErr (Option ConditionalAccessResponse)
  group_lookups : List String
deriving Repr

/-- One policy-block member expansion
set([member.user.email for group in groups
     for member in get_group_by_name(group).active_user_memberships] + users):
dereferences the groups left to right; a missing group raises AttributeError at
that point.  Returns the member lists when all resolve, plus the names
dereferenced. -/
def expandAux (env : DecisionEnv) : List String →
    List String × Option (List (List String))
  | [] => ([], some [])
  | g :: gs =>
    match env.get_group_by_name g with
    | none => ([g], none)
    | some ms =>
      let (tr, rest) := expandAux env gs
      (g :: tr, rest.map (ms :: ·))

def expand_members (env : DecisionEnv) (groups users : List String) :
    Except PyErr (List String) × List String :=
  let (tr, r) := expandAux env groups
  match r with
  | none => (.error (.attributeErrorOnNone "active_user_memberships"), tr)
  | some lists => (.ok ((lists.flatten ++ users).dedup), tr)

/-- The body run when yaml_service is truthy: gather the nine yaml_service_*
locals and the member sets (non_sensitive and system_owners only when enabled,
emergency_access always, and a second time when enabled), then walk the
if/elif chain.  The branch elif pd_user_id: holds a nested if with no else, so
when pd_user_id is truthy and the nested condition fails the chain ends with no
decision and the system_owners elif is never evaluated. -/
def gatherAndDecide (env : DecisionEnv) (ys : Service) (u : String)
    (rago tags : List String) (group_name : String) (pd : Option String)
    (incidents : IncidentsDict) (ending : Option Nat) : EngineOut :=
  let (nsaRes, trN) :=
    if ys.nsaEnabled then expand_members env ys.nsaGroups ys.nsaUsers
    else (Except.ok [], [])
  match nsaRes with
  | .error e => ⟨.error e, trN⟩
  | .ok nsaM =>
    let (soRes, trS) :=
      if ys.soEnabled then expand_members env ys.soGroups ys.soUsers
      else (Except.ok [], [])
    match soRes with
    | .error e => ⟨.error e, trN ++ trS⟩
    | .ok soM =>
      let (eaRes1, trE1) := expand_members env ys.eaGroups ys.eaUsers
      match eaRes1 with
      | .error e => ⟨.error e, trN ++ trS ++ trE1⟩
      | .ok eaM1 =>
        let (eaRes2, trE2) :=
          if ys.eaEnabled then expand_members env ys.eaGroups ys.eaUsers
          else (Except.ok [], [])
        match eaRes2 with
        | .error e => ⟨.error e, trN ++ trS ++ trE1 ++ trE2⟩
        | .ok eaM2 =>
          let eaM := if ys.eaEnabled then eaM2 else eaM1
          ⟨.ok (
            if group_name == "Auto-Approved-Group" then
              some ⟨true, .groupAutoApproved, ending⟩
            else if tags.contains "AutoApprove" then
              some ⟨true, .autoApprovedByTag, ending⟩
            else if rago.contains group_name then
              some ⟨true, .accessGroupOwner, ending⟩
            else if ys.nsaEnabled && nsaM.contains u then
              some ⟨true, .nonSensitiveAccess, ending⟩
            else
              match pd with
              | some _ =>
                if incidents.all_combined_assignees_by_email.contains (some u)
                    && ys.eaEnabled && eaM.contains u then
                  some ⟨true, .pagerDutyIncidents incidents.matching_incidents,
                      ending⟩
                else
                  none
              | none =>
                if ys.soEnabled && soM.contains u then
                  some ⟨true, .systemOwners, ending⟩
                else
                  none),
           trN ++ trS ++ trE1 ++ trE2⟩

/-- access_request_created.  When find_first_matching_service returns None the
nine yaml_service_* locals are never assigned, so once the chain reaches
elif yaml_service_non_sensitive_access_enabled the function raises
UnboundLocalError; the dictionary returned by get_pd_user_incidents always has
three keys, hence is always truthy. -/
def access_request_created (env : DecisionEnv) (access_request : AccessRequest)
    (group_name : String) (group_tags : List String) (requester : Requester) :
    EngineOut :=
  if !access_request.request_ownership && access_request.request_reason != "" then
    let rago := requester.active_group_ownerships
    let u := requester.username
    let pd := env.get_pd_user_id u
    match find_first_matching_service env.catalog group_name with
    | some ys =>
      gatherAndDecide env ys u rago group_tags group_name pd
        (match pd with
         | some pid => env.get_pd_user_incidents pid group_name
         | none => ⟨[], []⟩)
        access_request.request_ending_at
    | none =>
      if group_name == "Auto-Approved-Group" then
        ⟨.ok (some ⟨true, .groupAutoApproved, access_request.request_ending_at⟩), []⟩
      else if group_tags.contains "AutoApprove" then
        ⟨.ok (some ⟨true, .autoApprovedByTag, access_request.request_ending_at⟩), []⟩
      else if rago.contains group_name then
        ⟨.ok (some ⟨true, .accessGroupOwner, access_request.request_ending_at⟩), []⟩
      else
        ⟨.error (.unboundLocal "yaml_service_non_sensitive_access_enabled"), []⟩
  else
    ⟨.ok none, []⟩

/-! ## Owner reconciliation: multipass_group_owners_sync.py

The membership store is the OktaUser and OktaUserGroupMember tables; queries
with .first() are List.find?, in-place record mutation followed by commit is a
positional first-match update of the list.  Timestamps are naturals; a record
is active at time t when ended_at is None or greater than t.  The source reads
the wall clock inside each operation; here every operation of one pass is given
that pass's evaluation time.  The possibility of a SQLAlchemyError during one
owner's add or remove is modelled by the per-email oracles addFails and
removeFails of the database environment: when the oracle fires the operation
raises sqlAlchemyError after the session rollback (the source logs, rolls back
and re-raises).  The per-pass counts of effective record creations,
reactivations and endings are returned for observation; the source logs
them. -/

/-- A row of the OktaUser table. -/
structure UserRec where
  id : Nat
  email : String
deriving DecidableEq, Repr

/-- A row of OktaUserGroupMember, with the fields the script touches. -/
structure MemberRec where
  user_id : Nat
  group_id : Nat
  is_owner : Bool
  ended_at : Option Nat
deriving DecidableEq, Repr

/-- The membership store. -/
structure Store where
  users : List UserRec
  memberships : List MemberRec
deriving DecidableEq, Repr

/-- Failure oracles for store writes. -/
structure DbEnv where
  addFails : String → Bool
  removeFails : String → Bool

/-- ended_at is None or ended_at > current_time. -/
def isActiveAt (m : MemberRec) (t : Nat) : Bool :=
  match m.ended_at with
  | none => true
  | some e => t < e

/-- db.session.query(OktaUser).filter_by(email=...).first() -/
def findUserByEmail (us : List UserRec) (e : String) : Option UserRec :=
  us.find? (fun u => u.email == e)

/-- Resolve a membership record's user (the joinedload user relationship). -/
def findUserById (us : List UserRec) (uid : Nat) : Option UserRec :=
  us.find? (fun u => u.id == uid)

/-- Set ended_at of the first record satisfying p (in-place mutation of the
record returned by .first(), then commit). -/
def setEnded (newEnd : Option Nat) (p : MemberRec → Bool) :
    List MemberRec → List MemberRec
  | [] => []
  | m :: ms => if p m then { m with ended_at := newEnd } :: ms
               else m :: setEnded newEnd p ms

/-- The filter_by(group_id, user_id, is_owner=True) predicate of
add_owner_to_group (no ended_at condition). -/
def ownerRecPred (gid uid : Nat) (m : MemberRec) : Bool :=
  m.group_id == gid && m.user_id == uid && m.is_owner

/-- add_owner_to_group: no user with the email is a logged no-op; an existing
(group, user, is_owner) record that is still active is a logged no-op; an
existing ended record is reactivated by clearing ended_at; otherwise a new
record is inserted.  The Bool reports whether the store changed. -/
def add_owner_to_group (env : DbEnv) (s : Store) (gid : Nat)
    (owner_email : String) (now : Nat) : Except PyErr (Store × Bool) :=
  if env.addFails owner_email then .error .sqlAlchemyError
  else
    match findUserByEmail s.users owner_email with
    | none => .ok (s, false)
    | some owner =>
      match s.memberships.find? (ownerRecPred gid owner.id) with
      | some existing =>
        if isActiveAt existing now then .ok (s, false)
        else
          .ok ({ s with memberships :=
                   setEnded none (ownerRecPred gid owner.id) s.memberships },
               true)
      | none =>
        .ok ({ s with memberships :=
                 s.memberships ++ [⟨owner.id, gid, true, none⟩] },
             true)

/-- The active-owner predicate of remove_owner_from_group and of the
active_owners query of sync_group_owners. -/
def activeOwnerPred (gid : Nat) (t : Nat) (m : MemberRec) : Bool :=
  m.group_id == gid && m.is_owner && isActiveAt m t

/-- The remove query adds the user_id condition. -/
def activeOwnerRecPred (gid uid t : Nat) (m : MemberRec) : Bool :=
  m.group_id == gid && m.user_id == uid && m.is_owner && isActiveAt m t

/-- remove_owner_from_group: no user with the email, or no active record, is a
logged no-op; otherwise the first active record gets ended_at set to now. -/
def remove_owner_from_group (env : DbEnv) (s : Store) (gid : Nat)
    (owner_email : String) (now : Nat) : Except PyErr (Store × Bool) :=
  if env.removeFails owner_email then .error .sqlAlchemyError
  else
    match findUserByEmail s.users owner_email with
    | none => .ok (s, false)
    | some owner =>
      match s.memberships.find? (activeOwnerRecPred gid owner.id now) with
      | some _ =>
        .ok ({ s with memberships :=
                 (setEnded (some now) (activeOwnerRecPred gid owner.id now)
                   s.memberships) },
             true)
      | none => .ok (s, false)

/-- owner.user.email over the active_owners query results; a dangling user_id
would be an AttributeError on None. -/
def emailsOf (us : List UserRec) : List MemberRec → Except PyErr (List String)
  | [] => .ok []
  | m :: ms =>
    match findUserById us m.user_id with
    | none => .error (.attributeErrorOnNone "email")
    | some u =>
      match emailsOf us ms with
      | .error e => .error e
      | .ok es => .ok (u.email :: es)

/-- The add loop of sync_group_owners; an error propagates (each callee logs,
rolls back and re-raises, and the loop has no per-iteration handler). -/
def goAdd (env : DbEnv) (gid now : Nat) : Store → List String →
    Except PyErr (Store × Nat)
  | s, [] => .ok (s, 0)
  | s, e :: es =>
    match add_owner_to_group env s gid e now with
    | .error er => .error er
    | .ok (s', ch) =>
      match goAdd env gid now s' es with
      | .error er => .error er
      | .ok (s'', n) => .ok (s'', (if ch then 1 else 0) + n)

/-- The remove loop of sync_group_owners. -/
def goRemove (env : DbEnv) (gid now : Nat) : Store → List String →
    Except PyErr (Store × Nat)
  | s, [] => .ok (s, 0)
  | s, e :: es =>
    match remove_owner_from_group env s gid e now with
    | .error er => .error er
    | .ok (s', ch) =>
      match goRemove env gid now s' es with
      | .error er => .error er
      | .ok (s'', n) => .ok (s'', (if ch then 1 else 0) + n)

/-- sync_group_owners: query the active owners, diff their emails against the
expected set, add the missing ones, remove the unexpected ones.  Python sets
are modelled by deduplicated lists; iteration order over a set is arbitrary in
the source and fixed to list order here. -/
def sync_group_owners (env : DbEnv) (s : Store) (gid : Nat)
    (expected_owners : List String) (now : Nat) :
    Except PyErr (Store × Nat × Nat) :=
  let activeOwners := s.memberships.filter (activeOwnerPred gid now)
  match emailsOf s.users activeOwners with
  | .error e => .error e
  | .ok activeEmailsRaw =>
    let activeEmails := activeEmailsRaw.dedup
    let toAdd := expected_owners.dedup.filter (fun e => !activeEmails.contains e)
    let toRemove := activeEmails.filter (fun e => !expected_owners.contains e)
    match goAdd env gid now s toAdd with
    | .error e => .error e
    | .ok (s1, adds) =>
      match goRemove env gid now s1 toRemove with
      | .error e => .error e
      | .ok (s2, removes) => .ok (s2, adds, removes)

/-- What get_group_by_name of the sync script yields for one group name: the
row id and the emails of the active_user_memberships relationship (defined in
api.models, outside this repository snapshot, and therefore abstracted). -/
structure GroupInfo where
  id : Nat
  activeMemberEmails : List String
deriving DecidableEq, Repr

/-- The environment of the sync script: the group table plus the write-failure
oracles. -/
structure SyncEnv where
  db : DbEnv
  getGroupByName : String → Option GroupInfo

/-- One element of the twingate_services list, with the fields
sync_twingate_groups indexes. -/
structure TGService where
  hostname : String
  so_okta_groups : List String
  so_okta_users : List String
deriving DecidableEq, Repr

/-- The expected-owner computation of sync_twingate_groups:
[member.user.email for group in groups
 for member in get_group_by_name(group).active_user_memberships] resolved left
to right, a missing referenced group raising AttributeError on None, then
set(members + users). -/
def memberListsOf (env : SyncEnv) : List String →
    Except PyErr (List (List String))
  | [] => .ok []
  | g :: gs =>
    match env.getGroupByName g with
    | none => .error (.attributeErrorOnNone "active_user_memberships")
    | some gi =>
      match memberListsOf env gs with
      | .error e => .error e
      | .ok rest => .ok (gi.activeMemberEmails :: rest)

def expected_owner_emails (env : SyncEnv) (groups users : List String) :
    Except PyErr (List String) :=
  match memberListsOf env groups with
  | .error e => .error e
  | .ok lists => .ok ((lists.flatten ++ users).dedup)

/-- sync_twingate_groups: per service, compute the expected owners, resolve the
target group APP_TG_ prefixed hostname, skip the entry when the target group is
missing, otherwise sync its owners; any raised error propagates out of the
loop (the caller sync_yaml_owners logs and re-raises). -/
def sync_twingate_groups (env : SyncEnv) (s : Store) (now : Nat) :
    List TGService → Except PyErr Store
  | [] => .ok s
  | svc :: rest =>
    match expected_owner_emails env svc.so_okta_groups svc.so_okta_users with
    | .error e => .error e
    | .ok owners =>
      match env.getGroupByName ("APP_TG_" ++ svc.hostname) with
      | some gi =>
        match sync_group_owners env.db s gi.id owners now with
        | .error e => .error e
        | .ok (s', _, _) => sync_twingate_groups env s' now rest
      | none => sync_twingate_groups env s now rest

/-! ## Store well-formedness vocabulary used by the reconciliation theorems -/

/-- Distinct OktaUser primary keys. -/
def uniqueIds (us : List UserRec) : Prop :=
  us.Pairwise (fun a b => a.id ≠ b.id)

/-- Distinct OktaUser emails. -/
def uniqueEmails (us : List UserRec) : Prop :=
  us.Pairwise (fun a b => a.email ≠ b.email)

/-- Every membership row references an existing user (the joinedload user
relationship resolves). -/
def resolvable (s : Store) : Prop :=
  ∀ m ∈ s.memberships, (findUserById s.users m.user_id).isSome

/-- The data-model invariant: at most one active (group, user, is_owner=True)
record per user at evaluation time. -/
def uniqueActiveOwner (s : Store) (gid t : Nat) : Prop :=
  (s.memberships.filter (activeOwnerPred gid t)).Pairwise
    (fun a b => a.user_id ≠ b.user_id)

/-- The store is unchanged between the two runs: no record's future end
timestamp elapses in the interval. -/
def noExpiryBetween (s : Store) (t1 t2 : Nat) : Prop :=
  ∀ m ∈ s.memberships, ∀ e, m.ended_at = some e → t1 < e → t2 < e

/-- No SQLAlchemyError occurs during the runs. -/
def noDbFailures (env : DbEnv) : Prop :=
  ∀ e, env.addFails e = false ∧ env.removeFails e = false

/-- Records of one user among the membership rows. -/
def filterByUser (uid : Nat) (l : List MemberRec) : List MemberRec :=
  l.filter (fun m => m.user_id == uid)

/-! ## Concrete inputs used by the counterexamples and witnesses -/

/-- C1: an environment whose catalog is empty and whose stores resolve
nothing. -/
def c1Env : DecisionEnv :=
  { catalog := ⟨[], []⟩
    get_pd_user_id := fun _ => none
    get_pd_user_incidents := fun _ _ => ⟨[], []⟩
    get_group_by_name := fun _ => none }

def c1Req : AccessRequest := ⟨false, "need prod access for oncall", none⟩

def c1Requester : Requester := ⟨"alice@example.com", []⟩

/-- C2: a catalog entry for APP_AWS_SSO_PAYROLL whose system_owners block is
enabled and lists the requester, with no other block present. -/
def c2Service : Service :=
  { okta_group_mapping := some "APP_AWS_SSO_PAYROLL"
    hostname := none
    access_rules := some
      { auto_approval := some
          { non_sensitive_access := none
            system_owners := some
              { enabled := some true
                okta_groups := some []
                okta_users := some ["alice@example.com"] } }
        emergency_access := none } }

/-- C2: the requester has a PagerDuty account (get_pd_user_id resolves) but no
matching incident. -/
def c2Env : DecisionEnv :=
  { catalog := ⟨[⟨some [c2Service], none⟩], []⟩
    get_pd_user_id := fun _ => some "PDUSER77"
    get_pd_user_incidents := fun _ _ => ⟨[], []⟩
    get_group_by_name := fun _ => none }

def c2Req : AccessRequest := ⟨false, "need payroll access", none⟩

def c2Requester : Requester := ⟨"alice@example.com", []⟩

/-- C3: a catalog entry referencing the owner group ops-team, which is absent
from the membership store. -/
def c3Env : SyncEnv :=
  { db := ⟨fun _ => false, fun _ => false⟩
    getGroupByName := fun _ => none }

def c3Store : Store := ⟨[], []⟩

def c3Services : List TGService := [⟨"billing.internal", ["ops-team"], []⟩]

/-- C3 witness, second part: the referenced groups resolve but the target
group APP_TG_billing.internal is absent, so the entry is skipped. -/
def c3SkipEnv : SyncEnv :=
  { db := ⟨fun _ => false, fun _ => false⟩
    getGroupByName := fun g =>
      if g == "ops-team" then some ⟨5, ["bob@example.com"]⟩ else none }

/-- C4: the store write for alice fails with SQLAlchemyError. -/
def c4Db : DbEnv := ⟨fun e => e == "alice@x.com", fun _ => false⟩

def c4Store : Store := ⟨[⟨1, "bob@x.com"⟩], [⟨1, 7, true, none⟩]⟩

/-- C5: the /users/PDA request fails; one matching incident is assigned to that
user. -/
def c5Incident : RawIncident :=
  { id := some "Q1ABC"
    title := some "billing db down"
    html_url := some "https://pd.example.com/incidents/Q1ABC"
    service_summary := some "billing.internal"
    assignments := [⟨"Alice Doe", "PDA"⟩] }

def c5Env : PdEnv :=
  { user_http := fun _ => none
    incidents_http := fun _ => some [c5Incident] }

/-- C6 and C7: three users; alice is an active owner, bob is an owner ended at
time 5, carol is an active owner. -/
def c6Store : Store :=
  ⟨[⟨1, "alice@x.com"⟩, ⟨2, "bob@x.com"⟩, ⟨3, "carol@x.com"⟩],
   [⟨1, 7, true, none⟩, ⟨2, 7, true, some 5⟩, ⟨3, 7, true, none⟩]⟩

def c6Db : DbEnv := ⟨fun _ => false, fun _ => false⟩

/-- The store after the first pass with expected owners alice and bob at time
10: bob reactivated, carol ended at 10. -/
def c6Store1 : Store :=
  ⟨[⟨1, "alice@x.com"⟩, ⟨2, "bob@x.com"⟩, ⟨3, "carol@x.com"⟩],
   [⟨1, 7, true, none⟩, ⟨2, 7, true, none⟩, ⟨3, 7, true, some 10⟩]⟩

/-- C7: dora holds an owner record on group 9 that ended at time 5. -/
def c7Store : Store :=
  ⟨[⟨4, "dora@x.com"⟩], [⟨4, 9, true, some 5⟩]⟩

def c7Db : DbEnv := ⟨fun _ => false, fun _ => false⟩

/-- C8: a two-segment aws file and a twingate file with two entries. -/
def c8PayrollSvc : Service := ⟨some "APP_AWS_SSO_PAYROLL", none, none⟩

def c8BillingSvc : Service := ⟨none, some "billing.internal", none⟩

def c8Cat : Catalog :=
  ⟨[⟨some [⟨some "APP_AWS_SSO_OTHER", none, none⟩], none⟩,
    ⟨some [c8PayrollSvc], none⟩],
   [⟨none, some [⟨none, some "other.internal", none⟩, c8BillingSvc]⟩]⟩

/-- C10: a service with non_sensitive_access disabled, system_owners enabled,
emergency_access disabled; the disabled emergency block references a group. -/
def c10Service : Service :=
  { okta_group_mapping := some "APP_AWS_SSO_DATA"
    hostname := none
    access_rules := some
      { auto_approval := some
          { non_sensitive_access := some
              { enabled := some false
                okta_groups := some ["nsa-group"]
                okta_users := some [] }
            system_owners := some
              { enabled := some true
                okta_groups := some ["owners-group"]
                okta_users := some [] } }
        emergency_access := some
          { enabled := some false
            okta_groups := some ["dangling-emergency-group"]
            okta_users := some [] } } }

def c10Env : DecisionEnv :=
  { catalog := ⟨[⟨some [c10Service], none⟩], []⟩
    get_pd_user_id := fun _ => none
    get_pd_user_incidents := fun _ _ => ⟨[], []⟩
    get_group_by_name := fun g =>
      if g == "owners-group" then some ["dana@example.com"]
      else if g == "dangling-emergency-group" then some []
      else if g == "nsa-group" then some []
      else none }

def c10Req : AccessRequest := ⟨false, "need data access", some 99⟩

def c10Requester : Requester := ⟨"erin@example.com", []⟩

/-! ## Helper lemmas -/

theorem strBeqComm (a b : String) : (a == b) = (b == a) := by
  by_cases h : a = b
  · subst h; rfl
  · rw [beq_eq_false_iff_ne.mpr h, beq_eq_false_iff_ne.mpr (Ne.symm h)]

theorem setEnded_length (v : Option Nat) (p : MemberRec → Bool) :
    ∀ l : List MemberRec, (setEnded v p l).length = l.length := by
  intro l
  induction l with
  | nil => rfl
  | cons m ms ih =>
    by_cases h : p m
    · simp [setEnded, h]
    · simp [setEnded, h, ih]

theorem mem_setEnded {v : Option Nat} {p : MemberRec → Bool}
    {l : List MemberRec} {m' : MemberRec} (h : m' ∈ setEnded v p l) :
    m' ∈ l ∨ ∃ m ∈ l, p m = true ∧ m' = { m with ended_at := v } := by
  induction l with
  | nil => simp [setEnded] at h
  | cons x xs ih =>
    by_cases hx : p x
    · simp only [setEnded, hx, if_true, List.mem_cons] at h
      rcases h with h | h
      · exact .inr ⟨x, List.mem_cons_self x xs, hx, h⟩
      · exact .inl (List.mem_cons_of_mem x h)
    · have hx' : p x = false := by simpa using hx
      simp only [setEnded, hx', Bool.false_eq_true, if_false, List.mem_cons] at h
      rcases h with h | h
      · exact .inl (h ▸ List.mem_cons_self x xs)
      · rcases ih h with h' | ⟨m, hm, hpm, he⟩
        · exact .inl (List.mem_cons_of_mem x h')
        · exact .inr ⟨m, List.mem_cons_of_mem x hm, hpm, he⟩

theorem setEnded_find? {v : Option Nat} {p : MemberRec → Bool}
    {l : List MemberRec} {m : MemberRec} (h : l.find? p = some m) :
    { m with ended_at := v } ∈ setEnded v p l := by
  induction l with
  | nil => simp at h
  | cons x xs ih =>
    by_cases hx : p x
    · rw [List.find?_cons_of_pos _ hx] at h
      injection h with h
      subst h
      simp [setEnded, hx]
    · rw [List.find?_cons_of_neg _ hx] at h
      simp only [setEnded, hx, if_false]
      exact List.mem_cons_of_mem x (ih h)

theorem filter_setEnded_eq {v : Option Nat} {p q : MemberRec → Bool}
    (h1 : ∀ x : MemberRec, p x = true → q x = false)
    (h2 : ∀ x : MemberRec, p x = true → q { x with ended_at := v } = false) :
    ∀ l : List MemberRec, (setEnded v p l).filter q = l.filter q := by
  intro l
  induction l with
  | nil => rfl
  | cons x xs ih =>
    by_cases hx : p x
    · simp [setEnded, hx, List.filter_cons, h1 x hx, h2 x hx]
    · simp [setEnded, hx, List.filter_cons, ih]

theorem setEnded_no_p {t1 : Nat} {p : MemberRec → Bool}
    (hmod : ∀ x : MemberRec, p { x with ended_at := some t1 } = false) :
    ∀ l : List MemberRec, (l.filter p).length ≤ 1 →
      ∀ m' ∈ setEnded (some t1) p l, p m' = false := by
  intro l
  induction l with
  | nil => intro _ m' hm'; simp [setEnded] at hm'
  | cons x xs ih =>
    intro hlen m' hm'
    by_cases hx : p x
    · simp only [setEnded, hx, if_true, List.mem_cons] at hm'
      rcases hm' with h | h
      · rw [h]; exact hmod x
      · have hnil : xs.filter p = [] := by
          rw [List.filter_cons_of_pos hx] at hlen
          simp only [List.length_cons] at hlen
          have hz : (xs.filter p).length = 0 := by omega
          exact List.eq_nil_of_length_eq_zero hz
        have hmem := List.filter_eq_nil_iff.mp hnil m' h
        simpa using hmem
    · have hx' : p x = false := by simpa using hx
      simp only [setEnded, hx', Bool.false_eq_true, if_false, List.mem_cons] at hm'
      rcases hm' with h | h
      · rw [h]; exact hx'
      · rw [List.filter_cons_of_neg (by simpa using hx)] at hlen
        exact ih hlen m' h

theorem findUserByEmail_spec {us : List UserRec} {e : String} {u : UserRec}
    (h : findUserByEmail us e = some u) : u ∈ us ∧ u.email = e := by
  refine ⟨List.mem_of_find?_eq_some h, ?_⟩
  have := List.find?_some h
  simpa using this

theorem findUserById_spec {us : List UserRec} {uid : Nat} {u : UserRec}
    (h : findUserById us uid = some u) : u ∈ us ∧ u.id = uid := by
  refine ⟨List.mem_of_find?_eq_some h, ?_⟩
  have := List.find?_some h
  simpa using this

theorem findUserByEmail_isSome {us : List UserRec} {u : UserRec}
    (hu : u ∈ us) : (findUserByEmail us u.email).isSome := by
  rw [findUserByEmail, List.find?_isSome]
  exact ⟨u, hu, by simp⟩

theorem findUserById_isSome {us : List UserRec} {u : UserRec}
    (hu : u ∈ us) : (findUserById us u.id).isSome := by
  rw [findUserById, List.find?_isSome]
  exact ⟨u, hu, by simp⟩

theorem id_inj {us : List UserRec} (h : uniqueIds us) :
    ∀ u ∈ us, ∀ v ∈ us, u.id = v.id → u = v := by
  induction us with
  | nil => intro u hu; simp at hu
  | cons x xs ih =>
    rw [uniqueIds, List.pairwise_cons] at h
    intro u hu v hv he
    rcases List.mem_cons.mp hu with hu | hu <;>
      rcases List.mem_cons.mp hv with hv | hv
    · rw [hu, hv]
    · exact absurd (hu ▸ he) (h.1 v hv)
    · exact absurd (hv ▸ he).symm (h.1 u hu)
    · exact ih h.2 u hu v hv he

theorem email_inj {us : List UserRec} (h : uniqueEmails us) :
    ∀ u ∈ us, ∀ v ∈ us, u.email = v.email → u = v := by
  induction us with
  | nil => intro u hu; simp at hu
  | cons x xs ih =>
    rw [uniqueEmails, List.pairwise_cons] at h
    intro u hu v hv he
    rcases List.mem_cons.mp hu with hu | hu <;>
      rcases List.mem_cons.mp hv with hv | hv
    · rw [hu, hv]
    · exact absurd (hu ▸ he) (h.1 v hv)
    · exact absurd (hv ▸ he).symm (h.1 u hu)
    · exact ih h.2 u hu v hv he

theorem findUserById_of_mem {us : List UserRec} (h : uniqueIds us) :
    ∀ u ∈ us, findUserById us u.id = some u := by
  induction us with
  | nil => intro u hu; simp at hu
  | cons x xs ih =>
    rw [uniqueIds, List.pairwise_cons] at h
    intro u hu
    rcases List.mem_cons.mp hu with hu | hu
    · subst hu
      simp [findUserById]
    · rw [findUserById, List.find?_cons_of_neg]
      · exact ih h.2 u hu
      · simp only [beq_iff_eq]
        exact fun hc => (h.1 u hu) hc

theorem isActive_of_none {m : MemberRec} (h : m.ended_at = none) (t : Nat) :
    isActiveAt m t = true := by
  simp [isActiveAt, h]

theorem active_later {m : MemberRec} {t1 t2 : Nat}
    (hexp : ∀ e, m.ended_at = some e → t1 < e → t2 < e)
    (h : isActiveAt m t1 = true) : isActiveAt m t2 = true := by
  cases hm : m.ended_at with
  | none => simp [isActiveAt, hm]
  | some e =>
    rw [isActiveAt, hm] at h ⊢
    simp only [decide_eq_true_eq] at h ⊢
    exact hexp e hm h

theorem active_earlier {m : MemberRec} {t1 t2 : Nat} (ht : t1 ≤ t2)
    (h : isActiveAt m t2 = true) : isActiveAt m t1 = true := by
  cases hm : m.ended_at with
  | none => simp [isActiveAt, hm]
  | some e =>
    simp only [isActiveAt, hm, decide_eq_true_eq] at h ⊢
    omega

theorem inactive_at_ending {t1 : Nat} (m : MemberRec) (t2 : Nat) (ht : t1 ≤ t2) :
    isActiveAt { m with ended_at := some t1 } t2 = false := by
  simp only [isActiveAt, decide_eq_false_iff_not]
  omega

theorem emailsOf_ok {us : List UserRec} :
    ∀ ms : List MemberRec, (∀ m ∈ ms, (findUserById us m.user_id).isSome) →
      ∃ l, emailsOf us ms = .ok l ∧
        ∀ e : String, e ∈ l ↔
          ∃ m ∈ ms, ∃ u : UserRec, findUserById us m.user_id = some u ∧ u.email = e := by
  intro ms
  induction ms with
  | nil => exact fun _ => ⟨[], rfl, by simp⟩
  | cons m ms ih =>
    intro h
    have hm := h m (List.mem_cons_self m ms)
    rcases Option.isSome_iff_exists.mp hm with ⟨u, hu⟩
    rcases ih (fun m' hm' => h m' (List.mem_cons_of_mem m hm')) with ⟨l, hl, hchar⟩
    refine ⟨u.email :: l, ?_, ?_⟩
    · rw [emailsOf, hu, hl]
    · intro e
      constructor
      · intro he
        rcases List.mem_cons.mp he with he | he
        · exact ⟨m, List.mem_cons_self m ms, u, hu, he.symm⟩
        · rcases (hchar e).mp he with ⟨m', hm', u', hu', he'⟩
          exact ⟨m', List.mem_cons_of_mem m hm', u', hu', he'⟩
      · rintro ⟨m', hm', u', hu', he'⟩
        rcases List.mem_cons.mp hm' with hm' | hm'
        · subst hm'
          rw [hu] at hu'
          injection hu' with hu'
          exact List.mem_cons.mpr (.inl (hu' ▸ he').symm)
        · exact List.mem_cons.mpr (.inr ((hchar e).mpr ⟨m', hm', u', hu', he'⟩))

theorem count_user_le_one {l : List MemberRec}
    (h : l.Pairwise (fun a b => a.user_id ≠ b.user_id)) (uid : Nat) :
    (l.filter (fun m => m.user_id == uid)).length ≤ 1 := by
  induction l with
  | nil => simp
  | cons x xs ih =>
    rw [List.pairwise_cons] at h
    by_cases hx : x.user_id = uid
    · rw [List.filter_cons_of_pos (by simpa using hx)]
      have hnil : xs.filter (fun m => m.user_id == uid) = [] := by
        rw [List.filter_eq_nil_iff]
        intro m hm
        simp only [beq_iff_eq]
        intro hc
        exact h.1 m hm (hx ▸ hc ▸ rfl)
      rw [hnil]
      simp
    · rw [List.filter_cons_of_neg (by simpa using hx)]
      exact ih h.2

theorem activeOwnerRecPred_eq (gid uid t : Nat) (m : MemberRec) :
    activeOwnerRecPred gid uid t m =
      ((m.user_id == uid) && activeOwnerPred gid t m) := by
  cases h1 : m.group_id == gid <;> cases h2 : m.user_id == uid <;>
    cases h3 : m.is_owner <;> cases h4 : isActiveAt m t <;>
      simp [activeOwnerRecPred, activeOwnerPred, h1, h2, h3, h4]

theorem add_ok_of_ok (env : DbEnv) (s : Store) (gid : Nat) (e : String)
    (now : Nat) (h : env.addFails e = false) :
    ∃ p, add_owner_to_group env s gid e now = .ok p := by
  cases hu : findUserByEmail s.users e with
  | none => exact ⟨(s, false), by simp [add_owner_to_group, h, hu]⟩
  | some owner =>
    cases hf : s.memberships.find? (ownerRecPred gid owner.id) with
    | none =>
      exact ⟨(⟨s.users, s.memberships ++ [⟨owner.id, gid, true, none⟩]⟩, true),
        by simp [add_owner_to_group, h, hu, hf]⟩
    | some existing =>
      by_cases hact : isActiveAt existing now
      · exact ⟨(s, false), by simp [add_owner_to_group, h, hu, hf, hact]⟩
      · exact ⟨(⟨s.users, setEnded none (ownerRecPred gid owner.id) s.memberships⟩, true),
          by simp [add_owner_to_group, h, hu, hf, hact]⟩

theorem goAdd_error_of_fails {env : DbEnv} {gid now : Nat} :
    ∀ (es : List String) (s : Store), (∃ e ∈ es, env.addFails e = true) →
      goAdd env gid now s es = .error .sqlAlchemyError := by
  intro es
  induction es with
  | nil => intro s h; simp at h
  | cons e es ih =>
    intro s h
    by_cases hf : env.addFails e = true
    · rw [goAdd, add_owner_to_group, hf]
      rfl
    · have hf' : env.addFails e = false := by simpa using hf
      rcases add_ok_of_ok env s gid e now hf' with ⟨⟨s', ch⟩, hp⟩
      have hes : ∃ e' ∈ es, env.addFails e' = true := by
        rcases h with ⟨e', he', hfe'⟩
        rcases List.mem_cons.mp he' with he' | he'
        · exact absurd (he' ▸ hfe') hf
        · exact ⟨e', he', hfe'⟩
      rw [goAdd, hp]
      simp [ih s' hes]

theorem goAdd_noop {env : DbEnv} {gid now : Nat} :
    ∀ (es : List String) (s : Store),
      (∀ e ∈ es, env.addFails e = false ∧ findUserByEmail s.users e = none) →
      goAdd env gid now s es = .ok (s, 0) := by
  intro es
  induction es with
  | nil => intro s _; rfl
  | cons e es ih =>
    intro s h
    have he := h e (List.mem_cons_self e es)
    have hrest := ih s (fun e' he' => h e' (List.mem_cons_of_mem e he'))
    simp [goAdd, add_owner_to_group, he.1, he.2, hrest]

theorem memberListsOf_error {env : SyncEnv} :
    ∀ gs : List String, (∃ g ∈ gs, env.getGroupByName g = none) →
      memberListsOf env gs = .error (.attributeErrorOnNone "active_user_memberships") := by
  intro gs
  induction gs with
  | nil => intro h; simp at h
  | cons g gs ih =>
    intro h
    cases hg : env.getGroupByName g with
    | none => rw [memberListsOf, hg]
    | some gi =>
      have hgs : ∃ g' ∈ gs, env.getGroupByName g' = none := by
        rcases h with ⟨g', hg', hnone⟩
        rcases List.mem_cons.mp hg' with hg' | hg'
        · rw [hg'] at hnone; rw [hnone] at hg; cases hg
        · exact ⟨g', hg', hnone⟩
      rw [memberListsOf, hg, ih hgs]

theorem expandAux_present {env : DecisionEnv} :
    ∀ gs : List String, (∀ g ∈ gs, (env.get_group_by_name g).isSome) →
      ∃ ls, expandAux env gs = (gs, some ls) := by
  intro gs
  induction gs with
  | nil => intro _; exact ⟨[], rfl⟩
  | cons g gs ih =>
    intro h
    rcases Option.isSome_iff_exists.mp (h g (List.mem_cons_self g gs)) with ⟨ms, hms⟩
    rcases ih (fun g' hg' => h g' (List.mem_cons_of_mem g hg')) with ⟨ls, hls⟩
    refine ⟨ms :: ls, ?_⟩
    simp [expandAux, hms, hls]

theorem expand_members_present {env : DecisionEnv} (gs us : List String)
    (h : ∀ g ∈ gs, (env.get_group_by_name g).isSome) :
    ∃ l, expand_members env gs us = (.ok l, gs) := by
  rcases expandAux_present gs h with ⟨ls, hls⟩
  exact ⟨_, by rw [expand_members, hls]⟩

theorem findInDocs_eq (key : ServiceKey) (target : String) :
    ∀ docs : List YamlDoc,
      findInDocs key target docs =
        ((docs.map (·.servicesFor key)).flatten).find? (matchesService key target) := by
  intro docs
  induction docs with
  | nil => rfl
  | cons d ds ih =>
    rw [List.map_cons, List.flatten_cons, List.find?_append]
    rw [findInDocs, ih]
    cases (d.servicesFor key).find? (matchesService key target) with
    | none => rfl
    | some s => rfl

theorem mem_filterByUser {uid : Nat} {l : List MemberRec} {m : MemberRec} :
    m ∈ filterByUser uid l ↔ m ∈ l ∧ m.user_id = uid := by
  simp [filterByUser, List.mem_filter]

theorem ownerRecPred_iff {gid uid : Nat} {m : MemberRec} :
    ownerRecPred gid uid m = true ↔
      m.group_id = gid ∧ m.user_id = uid ∧ m.is_owner = true := by
  simp [ownerRecPred, Bool.and_eq_true, beq_iff_eq, and_assoc]

theorem activeOwnerPred_iff {gid t : Nat} {m : MemberRec} :
    activeOwnerPred gid t m = true ↔
      m.group_id = gid ∧ m.is_owner = true ∧ isActiveAt m t = true := by
  simp [activeOwnerPred, Bool.and_eq_true, beq_iff_eq, and_assoc]

theorem activeOwnerRecPred_iff {gid uid t : Nat} {m : MemberRec} :
    activeOwnerRecPred gid uid t m = true ↔
      m.group_id = gid ∧ m.user_id = uid ∧ m.is_owner = true ∧
        isActiveAt m t = true := by
  simp [activeOwnerRecPred, Bool.and_eq_true, beq_iff_eq, and_assoc]

/-- The add loop of one pass: when no store write fails, it returns a store
with the same user table in which, per user, records of users not named by the
processed emails are untouched, every row is an original row or a fresh active
owner row for a processed email, and every processed known email ends up with
an owner row that is unconditionally active or was already active. -/
theorem goAdd_spec (env : DbEnv) (gid t1 : Nat) :
    ∀ (es : List String) (s : Store),
    (∀ e ∈ es, env.addFails e = false) →
    uniqueIds s.users →
    es.Nodup →
    ∃ sa n, goAdd env gid t1 s es = .ok (sa, n) ∧
      sa.users = s.users ∧
      (∀ uid : Nat,
        (∀ e ∈ es, ∀ u : UserRec, findUserByEmail s.users e = some u → u.id ≠ uid) →
        filterByUser uid sa.memberships = filterByUser uid s.memberships) ∧
      (∀ m' ∈ sa.memberships, m' ∈ s.memberships ∨
        (m'.ended_at = none ∧ m'.group_id = gid ∧ m'.is_owner = true ∧
         ∃ e ∈ es, ∃ u : UserRec, findUserByEmail s.users e = some u ∧
           m'.user_id = u.id)) ∧
      (∀ e ∈ es, ∀ u : UserRec, findUserByEmail s.users e = some u →
        ∃ m' ∈ sa.memberships, m'.user_id = u.id ∧ m'.group_id = gid ∧
          m'.is_owner = true ∧
          (m'.ended_at = none ∨ (m' ∈ s.memberships ∧ isActiveAt m' t1 = true))) := by
  intro es
  induction es with
  | nil =>
    intro s _ _ _
    refine ⟨s, 0, rfl, rfl, fun _ _ => rfl, fun m' hm' => .inl hm', ?_⟩
    intro e he
    simp at he
  | cons e es ih =>
    intro s hfail hids hnd
    have hfe : env.addFails e = false := hfail e (List.mem_cons_self e es)
    have hfail' : ∀ e' ∈ es, env.addFails e' = false :=
      fun e' he' => hfail e' (List.mem_cons_of_mem e he')
    have hne : e ∉ es := (List.nodup_cons.mp hnd).1
    have hnd' : es.Nodup := (List.nodup_cons.mp hnd).2
    cases hu : findUserByEmail s.users e with
    | none =>
      rcases ih s hfail' hids hnd' with ⟨sa, n, hrun, husers, hU, hG3, hG2⟩
      refine ⟨sa, n, ?_, husers, ?_, ?_, ?_⟩
      · simp [goAdd, add_owner_to_group, hfe, hu, hrun]
      · intro uid hcond
        exact hU uid (fun e' he' u' hu' =>
          hcond e' (List.mem_cons_of_mem e he') u' hu')
      · intro m' hm'
        rcases hG3 m' hm' with h | ⟨h1, h2, h3, e', he', u', hu', hid⟩
        · exact .inl h
        · exact .inr ⟨h1, h2, h3, e', List.mem_cons_of_mem e he', u', hu', hid⟩
      · intro e' he' u' hu'
        rcases List.mem_cons.mp he' with he' | he'
        · subst he'; rw [hu] at hu'; cases hu'
        · exact hG2 e' he' u' hu'
    | some u =>
      have huSpec := findUserByEmail_spec hu
      have hunt : ∀ e' ∈ es, ∀ u' : UserRec,
          findUserByEmail s.users e' = some u' → u'.id ≠ u.id := by
        intro e' he' u' hu' hid
        have h1 := findUserByEmail_spec hu'
        have hequ : u' = u := id_inj hids u' h1.1 u huSpec.1 hid
        rw [hequ] at h1
        have heq : e = e' := (huSpec.2.symm).trans h1.2
        exact hne (heq ▸ he')
      cases hfind : s.memberships.find? (ownerRecPred gid u.id) with
      | some m =>
        have hmDec := ownerRecPred_iff.mp (List.find?_some hfind)
        have hmMem := List.mem_of_find?_eq_some hfind
        by_cases hact : isActiveAt m t1
        · -- already an active owner: logged no-op
          rcases ih s hfail' hids hnd' with ⟨sa, n, hrun, husers, hU, hG3, hG2⟩
          refine ⟨sa, n, ?_, husers, ?_, ?_, ?_⟩
          · simp [goAdd, add_owner_to_group, hfe, hu, hfind, hact, hrun]
          · intro uid hcond
            exact hU uid (fun e' he' u' hu' =>
              hcond e' (List.mem_cons_of_mem e he') u' hu')
          · intro m' hm'
            rcases hG3 m' hm' with h | ⟨h1, h2, h3, e', he', u', hu', hid⟩
            · exact .inl h
            · exact .inr ⟨h1, h2, h3, e', List.mem_cons_of_mem e he', u', hu', hid⟩
          · intro e' he' u' hu'
            rcases List.mem_cons.mp he' with he' | he'
            · subst he'
              rw [hu] at hu'
              injection hu' with hu'
              subst hu'
              have hfeq := hU u.id hunt
              have hmf : m ∈ filterByUser u.id s.memberships :=
                mem_filterByUser.mpr ⟨hmMem, hmDec.2.1⟩
              rw [← hfeq] at hmf
              exact ⟨m, (mem_filterByUser.mp hmf).1, hmDec.2.1, hmDec.1,
                hmDec.2.2, .inr ⟨hmMem, hact⟩⟩
            · exact hG2 e' he' u' hu'
        · -- reactivate the ended record
          rcases ih ⟨s.users, setEnded none (ownerRecPred gid u.id) s.memberships⟩
            hfail' hids hnd' with ⟨sa, n, hrun, husers, hU, hG3, hG2⟩
          have hdisj : ∀ uid : Nat, u.id ≠ uid →
              filterByUser uid (setEnded none (ownerRecPred gid u.id) s.memberships) =
                filterByUser uid s.memberships := by
            intro uid hneq
            rw [filterByUser, filterByUser]
            refine filter_setEnded_eq ?_ ?_ s.memberships
            · intro x hx
              have := (ownerRecPred_iff.mp hx).2.1
              simp [this]
              exact hneq
            · intro x hx
              have := (ownerRecPred_iff.mp hx).2.1
              simp [this]
              exact hneq
          refine ⟨sa, 1 + n, ?_, husers, ?_, ?_, ?_⟩
          · simp [goAdd, add_owner_to_group, hfe, hu, hfind, hact, hrun]
          · intro uid hcond
            have hidneq : u.id ≠ uid := hcond e (List.mem_cons_self e es) u hu
            have h1 := hU uid (fun e' he' u' hu' =>
              hcond e' (List.mem_cons_of_mem e he') u' hu')
            rw [h1]
            exact hdisj uid hidneq
          · intro m' hm'
            rcases hG3 m' hm' with h | ⟨h1, h2, h3, e', he', u', hu', hid⟩
            · rcases mem_setEnded h with h | ⟨m0, hm0, hp0, hEq⟩
              · exact .inl h
              · have hdec0 := ownerRecPred_iff.mp hp0
                refine .inr ⟨by rw [hEq], by rw [hEq]; exact hdec0.1,
                  by rw [hEq]; exact hdec0.2.2, e, List.mem_cons_self e es, u, hu,
                  by rw [hEq]; exact hdec0.2.1⟩
            · exact .inr ⟨h1, h2, h3, e', List.mem_cons_of_mem e he', u', hu', hid⟩
          · intro e' he' u' hu'
            rcases List.mem_cons.mp he' with he' | he'
            · subst he'
              rw [hu] at hu'
              injection hu' with hu'
              subst hu'
              have hre : ({ m with ended_at := none } : MemberRec) ∈
                  setEnded none (ownerRecPred gid u.id) s.memberships :=
                setEnded_find? hfind
              have hfeq := hU u.id hunt
              have hmf : ({ m with ended_at := none } : MemberRec) ∈
                  filterByUser u.id (setEnded none (ownerRecPred gid u.id) s.memberships) :=
                mem_filterByUser.mpr ⟨hre, hmDec.2.1⟩
              rw [← hfeq] at hmf
              exact ⟨{ m with ended_at := none }, (mem_filterByUser.mp hmf).1,
                hmDec.2.1, hmDec.1, hmDec.2.2, .inl rfl⟩
            · rcases hG2 e' he' u' hu' with ⟨m', hm', ha, hb, hc, hd⟩
              refine ⟨m', hm', ha, hb, hc, ?_⟩
              rcases hd with hd | ⟨hmem', hact'⟩
              · exact .inl hd
              · rcases mem_setEnded hmem' with hmm | ⟨m0, hm0, hp0, hEq⟩
                · exact .inr ⟨hmm, hact'⟩
                · exact .inl (by rw [hEq])
      | none =>
        -- insert a new owner row
        rcases ih ⟨s.users, s.memberships ++ [⟨u.id, gid, true, none⟩]⟩
          hfail' hids hnd' with ⟨sa, n, hrun, husers, hU, hG3, hG2⟩
        refine ⟨sa, 1 + n, ?_, husers, ?_, ?_, ?_⟩
        · simp [goAdd, add_owner_to_group, hfe, hu, hfind, hrun]
        · intro uid hcond
          have hidneq : u.id ≠ uid := hcond e (List.mem_cons_self e es) u hu
          have h1 := hU uid (fun e' he' u' hu' =>
            hcond e' (List.mem_cons_of_mem e he') u' hu')
          rw [h1]
          rw [filterByUser, filterByUser, List.filter_append]
          have hnil : List.filter (fun m => m.user_id == uid)
              [(⟨u.id, gid, true, none⟩ : MemberRec)] = [] := by
            simp [hidneq]
          rw [hnil, List.append_nil]
        · intro m' hm'
          rcases hG3 m' hm' with h | ⟨h1, h2, h3, e', he', u', hu', hid⟩
          · rcases List.mem_append.mp h with h | h
            · exact .inl h
            · have hEq : m' = ⟨u.id, gid, true, none⟩ := by simpa using h
              exact .inr ⟨by rw [hEq], by rw [hEq], by rw [hEq], e,
                List.mem_cons_self e es, u, hu, by rw [hEq]⟩
          · exact .inr ⟨h1, h2, h3, e', List.mem_cons_of_mem e he', u', hu', hid⟩
        · intro e' he' u' hu'
          rcases List.mem_cons.mp he' with he' | he'
          · subst he'
            rw [hu] at hu'
            injection hu' with hu'
            subst hu'
            have hnew : (⟨u.id, gid, true, none⟩ : MemberRec) ∈
                s.memberships ++ [⟨u.id, gid, true, none⟩] := by simp
            have hfeq := hU u.id hunt
            have hmf : (⟨u.id, gid, true, none⟩ : MemberRec) ∈
                filterByUser u.id (s.memberships ++ [⟨u.id, gid, true, none⟩]) :=
              mem_filterByUser.mpr ⟨hnew, rfl⟩
            rw [← hfeq] at hmf
            exact ⟨⟨u.id, gid, true, none⟩, (mem_filterByUser.mp hmf).1,
              rfl, rfl, rfl, .inl rfl⟩
          · rcases hG2 e' he' u' hu' with ⟨m', hm', ha, hb, hc, hd⟩
            refine ⟨m', hm', ha, hb, hc, ?_⟩
            rcases hd with hd | ⟨hmem', hact'⟩
            · exact .inl hd
            · rcases List.mem_append.mp hmem' with hmm | hmm
              · exact .inr ⟨hmm, hact'⟩
              · have hEq : m' = ⟨u.id, gid, true, none⟩ := by simpa using hmm
                exact .inl (by rw [hEq])

/-- The remove loop of one pass: same user table, records of users not named
by the processed emails untouched, every row original or ended at the pass
time, and a processed known email with at most one matching active owner row
has no active owner row afterwards. -/
theorem goRemove_spec (env : DbEnv) (gid t1 : Nat) :
    ∀ (rs : List String) (s : Store),
    (∀ e ∈ rs, env.removeFails e = false) →
    uniqueIds s.users →
    rs.Nodup →
    ∃ s1 k, goRemove env gid t1 s rs = .ok (s1, k) ∧
      s1.users = s.users ∧
      (∀ uid : Nat,
        (∀ e ∈ rs, ∀ u : UserRec, findUserByEmail s.users e = some u → u.id ≠ uid) →
        filterByUser uid s1.memberships = filterByUser uid s.memberships) ∧
      (∀ m' ∈ s1.memberships, m' ∈ s.memberships ∨
        ∃ m0 ∈ s.memberships, m' = { m0 with ended_at := some t1 }) ∧
      (∀ e ∈ rs, ∀ u : UserRec, findUserByEmail s.users e = some u →
        (s.memberships.filter (activeOwnerRecPred gid u.id t1)).length ≤ 1 →
        ∀ m' ∈ s1.memberships, m'.user_id = u.id → m'.group_id = gid →
          m'.is_owner = true → isActiveAt m' t1 = false) := by
  intro rs
  induction rs with
  | nil =>
    intro s _ _ _
    refine ⟨s, 0, rfl, rfl, fun _ _ => rfl, fun m' hm' => .inl hm', ?_⟩
    intro e he
    simp at he
  | cons e rs ih =>
    intro s hfail hids hnd
    have hfe : env.removeFails e = false := hfail e (List.mem_cons_self e rs)
    have hfail' : ∀ e' ∈ rs, env.removeFails e' = false :=
      fun e' he' => hfail e' (List.mem_cons_of_mem e he')
    have hne : e ∉ rs := (List.nodup_cons.mp hnd).1
    have hnd' : rs.Nodup := (List.nodup_cons.mp hnd).2
    cases hu : findUserByEmail s.users e with
    | none =>
      rcases ih s hfail' hids hnd' with ⟨s1, k, hrun, husers, hU, hG3, hK2⟩
      refine ⟨s1, k, ?_, husers, ?_, hG3, ?_⟩
      · simp [goRemove, remove_owner_from_group, hfe, hu, hrun]
      · intro uid hcond
        exact hU uid (fun e' he' u' hu' =>
          hcond e' (List.mem_cons_of_mem e he') u' hu')
      · intro e' he' u' hu'
        rcases List.mem_cons.mp he' with he' | he'
        · subst he'; rw [hu] at hu'; cases hu'
        · exact hK2 e' he' u' hu'
    | some u =>
      have huSpec := findUserByEmail_spec hu
      have hunt : ∀ e' ∈ rs, ∀ u' : UserRec,
          findUserByEmail s.users e' = some u' → u'.id ≠ u.id := by
        intro e' he' u' hu' hid
        have h1 := findUserByEmail_spec hu'
        have hequ : u' = u := id_inj hids u' h1.1 u huSpec.1 hid
        rw [hequ] at h1
        have heq : e = e' := (huSpec.2.symm).trans h1.2
        exact hne (heq ▸ he')
      cases hfind : s.memberships.find? (activeOwnerRecPred gid u.id t1) with
      | none =>
        rcases ih s hfail' hids hnd' with ⟨s1, k, hrun, husers, hU, hG3, hK2⟩
        refine ⟨s1, k, ?_, husers, ?_, hG3, ?_⟩
        · simp [goRemove, remove_owner_from_group, hfe, hu, hfind, hrun]
        · intro uid hcond
          exact hU uid (fun e' he' u' hu' =>
            hcond e' (List.mem_cons_of_mem e he') u' hu')
        · intro e' he' u' hu'
          rcases List.mem_cons.mp he' with he' | he'
          · subst he'
            rw [hu] at hu'
            injection hu' with hu'
            subst hu'
            intro _ m' hm' h1 h2 h3
            rcases hG3 m' hm' with hmm | ⟨m0, hm0, hEq⟩
            · by_contra hA
              have hA' : isActiveAt m' t1 = true := by
                cases hAx : isActiveAt m' t1
                · exact absurd hAx hA
                · rfl
              exact (List.find?_eq_none.mp hfind m' hmm)
                (activeOwnerRecPred_iff.mpr ⟨h2, h1, h3, hA'⟩)
            · rw [hEq]
              exact inactive_at_ending m0 t1 (le_refl t1)
          · exact hK2 e' he' u' hu'
      | some m0 =>
        have hpmod : ∀ x : MemberRec,
            activeOwnerRecPred gid u.id t1 { x with ended_at := some t1 } = false := by
          intro x
          cases hp : activeOwnerRecPred gid u.id t1 { x with ended_at := some t1 }
          · rfl
          · have := (activeOwnerRecPred_iff.mp hp).2.2.2
            rw [inactive_at_ending x t1 (le_refl t1)] at this
            cases this
        rcases ih ⟨s.users,
            setEnded (some t1) (activeOwnerRecPred gid u.id t1) s.memberships⟩
          hfail' hids hnd' with ⟨s1, k, hrun, husers, hU, hG3, hK2⟩
        have hdisj : ∀ uid : Nat, u.id ≠ uid →
            filterByUser uid
                (setEnded (some t1) (activeOwnerRecPred gid u.id t1) s.memberships) =
              filterByUser uid s.memberships := by
          intro uid hneq
          rw [filterByUser, filterByUser]
          refine filter_setEnded_eq ?_ ?_ s.memberships
          · intro x hx
            have := (activeOwnerRecPred_iff.mp hx).2.1
            simp [this]
            exact hneq
          · intro x hx
            have := (activeOwnerRecPred_iff.mp hx).2.1
            simp [this]
            exact hneq
        refine ⟨s1, 1 + k, ?_, husers, ?_, ?_, ?_⟩
        · simp [goRemove, remove_owner_from_group, hfe, hu, hfind, hrun]
        · intro uid hcond
          have hidneq : u.id ≠ uid := hcond e (List.mem_cons_self e rs) u hu
          have h1 := hU uid (fun e' he' u' hu' =>
            hcond e' (List.mem_cons_of_mem e he') u' hu')
          rw [h1]
          exact hdisj uid hidneq
        · intro m' hm'
          rcases hG3 m' hm' with h | ⟨m0', hm0', hEq⟩
          · rcases mem_setEnded h with h | ⟨x, hx, hpx, hEq⟩
            · exact .inl h
            · exact .inr ⟨x, hx, hEq⟩
          · rcases mem_setEnded hm0' with h | ⟨x, hx, hpx, hEqx⟩
            · exact .inr ⟨m0', h, hEq⟩
            · refine .inr ⟨x, hx, ?_⟩
              rw [hEq, hEqx]
        · intro e' he' u' hu'
          rcases List.mem_cons.mp he' with he' | he'
          · subst he'
            rw [hu] at hu'
            injection hu' with hu'
            subst hu'
            intro hlen m' hm' h1 h2 h3
            rcases hG3 m' hm' with hmm | ⟨m0', hm0', hEq⟩
            · have hp := setEnded_no_p hpmod s.memberships hlen m' hmm
              by_contra hA
              have hA' : isActiveAt m' t1 = true := by
                cases hAx : isActiveAt m' t1
                · exact absurd hAx hA
                · rfl
              rw [activeOwnerRecPred_iff.mpr ⟨h2, h1, h3, hA'⟩] at hp
              cases hp
            · rw [hEq]
              exact inactive_at_ending m0' t1 (le_refl t1)
          · intro hlen
            have hneq := hunt e' he' u' hu'
            have hfeq : (setEnded (some t1) (activeOwnerRecPred gid u.id t1)
                  s.memberships).filter (activeOwnerRecPred gid u'.id t1) =
                s.memberships.filter (activeOwnerRecPred gid u'.id t1) := by
              refine filter_setEnded_eq ?_ ?_ s.memberships
              · intro x hx
                have hxu := (activeOwnerRecPred_iff.mp hx).2.1
                cases hp : activeOwnerRecPred gid u'.id t1 x
                · rfl
                · have hthis := (activeOwnerRecPred_iff.mp hp).2.1
                  rw [hxu] at hthis
                  exact absurd hthis.symm hneq
              · intro x hx
                cases hp : activeOwnerRecPred gid u'.id t1
                    { x with ended_at := some t1 }
                · rfl
                · have hthis := (activeOwnerRecPred_iff.mp hp).2.2.2
                  rw [inactive_at_ending x t1 (le_refl t1)] at hthis
                  cases hthis
            exact hK2 e' he' u' hu' (by rw [hfeq]; exact hlen)

theorem filter_rec_outer (gid uid t : Nat) :
    ∀ l : List MemberRec, l.filter (activeOwnerRecPred gid uid t) =
      filterByUser uid (l.filter (activeOwnerPred gid t)) := by
  intro l
  induction l with
  | nil => rfl
  | cons m l ih =>
    rw [filterByUser] at ih ⊢
    by_cases hu : (m.user_id == uid) = true <;>
      by_cases ha : activeOwnerPred gid t m = true <;>
        simp [List.filter_cons, activeOwnerRecPred_eq, hu, ha, ih]

theorem filter_rec_inner (gid uid t : Nat) :
    ∀ l : List MemberRec, l.filter (activeOwnerRecPred gid uid t) =
      (filterByUser uid l).filter (activeOwnerPred gid t) := by
  intro l
  induction l with
  | nil => rfl
  | cons m l ih =>
    rw [filterByUser] at ih ⊢
    by_cases hu : (m.user_id == uid) = true <;>
      by_cases ha : activeOwnerPred gid t m = true <;>
        simp [List.filter_cons, activeOwnerRecPred_eq, hu, ha, ih]


/-- C6: reconciliation is idempotent.  For every group, expected-owner set and
well-formed membership store (distinct user ids and emails, resolvable
membership rows, at most one active owner row per user, no write failures, and
no record expiring naturally between the two evaluation times), running
sync_group_owners a second time on the store produced by the first run
performs zero additions and zero removals and returns the store unchanged. -/
theorem sync_group_owners_idempotent
    (env : DbEnv) (s : Store) (gid : Nat) (expected : List String)
    (t1 t2 : Nat) (s1 : Store) (a r : Nat)
    (hdb : noDbFailures env)
    (hids : uniqueIds s.users)
    (hemails : uniqueEmails s.users)
    (hres : resolvable s)
    (huniq : uniqueActiveOwner s gid t1)
    (ht : t1 ≤ t2)
    (hexp : noExpiryBetween s t1 t2)
    (h1 : sync_group_owners env s gid expected t1 = .ok (s1, a, r)) :
    sync_group_owners env s1 gid expected t2 = .ok (s1, 0, 0) := by
  classical
  -- run 1, add phase
  have hresA1 : ∀ m ∈ s.memberships.filter (activeOwnerPred gid t1),
      (findUserById s.users m.user_id).isSome :=
    fun m hm => hres m (List.mem_of_mem_filter hm)
  rcases emailsOf_ok (s.memberships.filter (activeOwnerPred gid t1)) hresA1 with
    ⟨l1, hl1, hl1c⟩
  have hfa : ∀ e ∈ expected.dedup.filter (fun e => !(l1.dedup.contains e)),
      env.addFails e = false := fun e _ => (hdb e).1
  have hnda : (expected.dedup.filter (fun e => !(l1.dedup.contains e))).Nodup :=
    (List.nodup_dedup expected).filter _
  rcases goAdd_spec env gid t1
      (expected.dedup.filter (fun e => !(l1.dedup.contains e))) s hfa hids hnda with
    ⟨sa, na, hruA, husA, hUA, hG3A, hG2A⟩
  -- run 1, remove phase
  have hfr : ∀ e ∈ l1.dedup.filter (fun e => !(expected.contains e)),
      env.removeFails e = false := fun e _ => (hdb e).2
  have hndr : (l1.dedup.filter (fun e => !(expected.contains e))).Nodup :=
    (List.nodup_dedup l1).filter _
  rcases goRemove_spec env gid t1
      (l1.dedup.filter (fun e => !(expected.contains e))) sa hfr
      (husA ▸ hids) hndr with ⟨s1', k, hruR, husR, hUR, hG3R, hK2R⟩
  rw [husA] at hUR hK2R husR
  -- identify s1 with the computed store
  simp only [sync_group_owners, hl1, hruA, hruR, Except.ok.injEq,
    Prod.mk.injEq] at h1
  obtain ⟨hs1, hna, hk⟩ := h1
  subst hs1
  have hus1 : s1'.users = s.users := husR
  -- two users sharing an id share their record, so also their email
  have hsameId : ∀ (e : String) (u : UserRec), findUserByEmail s.users e = some u →
      ∀ (e' : String) (u' : UserRec), findUserByEmail s.users e' = some u' →
      u'.id = u.id → e' = e := by
    intro e u hu e' u' hu' hid
    have ha := findUserByEmail_spec hu
    have hb := findUserByEmail_spec hu'
    have hequ : u' = u := id_inj hids u' hb.1 u ha.1 hid
    rw [hequ] at hb
    exact hb.2.symm.trans ha.2
  have hfindOfById : ∀ (e : String) (w : UserRec), w ∈ s.users → w.email = e →
      findUserByEmail s.users e = some w := by
    intro e w hwmem hwe
    rcases Option.isSome_iff_exists.mp (findUserByEmail_isSome hwmem) with ⟨w2, hw2⟩
    have hw2spec := findUserByEmail_spec hw2
    have hw2eq : w2 = w := email_inj hemails w2 hw2spec.1 w hwmem hw2spec.2
    rw [hw2eq] at hw2
    rw [← hwe]
    exact hw2
  -- resolvability after the pass
  have hres_sa : ∀ m ∈ sa.memberships, (findUserById s.users m.user_id).isSome := by
    intro m hm
    rcases hG3A m hm with hm' | ⟨_, _, _, e, _, u, hu, hid⟩
    · exact hres m hm'
    · rw [hid]
      exact findUserById_isSome (findUserByEmail_spec hu).1
  have hres1 : ∀ m ∈ s1'.memberships, (findUserById s.users m.user_id).isSome := by
    intro m hm
    rcases hG3R m hm with hm' | ⟨m0, hm0, hEq⟩
    · exact hres_sa m hm'
    · rw [hEq]
      exact hres_sa m0 hm0
  rcases emailsOf_ok (s1'.memberships.filter (activeOwnerPred gid t2))
      (fun m hm => hres1 m (List.mem_of_mem_filter hm)) with ⟨l2, hl2, hl2c⟩
  -- an email active before the pass and still expected stays active
  have hF1 : ∀ e : String, e ∈ l1 → e ∈ expected → e ∈ l2 := by
    intro e he1 hee
    rcases (hl1c e).mp he1 with ⟨m, hmA1, w, hw, hwe⟩
    have hmem_s : m ∈ s.memberships := List.mem_of_mem_filter hmA1
    have hact1 := activeOwnerPred_iff.mp (List.of_mem_filter hmA1)
    have hwspec := findUserById_spec hw
    have hwfind : findUserByEmail s.users e = some w := hfindOfById e w hwspec.1 hwe
    have huA : ∀ e' ∈ expected.dedup.filter (fun e => !(l1.dedup.contains e)),
        ∀ u' : UserRec, findUserByEmail s.users e' = some u' →
          u'.id ≠ m.user_id := by
      intro e' he' u' hu' hid
      have heq : e' = e := hsameId e w hwfind e' u' hu' (by rw [hid, hwspec.2])
      have hnotl1 : ¬(e' ∈ l1.dedup) := by
        have := List.of_mem_filter he'
        simpa [List.elem_iff] using this
      exact hnotl1 (heq ▸ List.mem_dedup.mpr he1)
    have hfeqA := hUA m.user_id huA
    have hmfs : m ∈ filterByUser m.user_id s.memberships :=
      mem_filterByUser.mpr ⟨hmem_s, rfl⟩
    rw [← hfeqA] at hmfs
    have hmsa : m ∈ sa.memberships := (mem_filterByUser.mp hmfs).1
    have huR : ∀ e'' ∈ l1.dedup.filter (fun e => !(expected.contains e)),
        ∀ u'' : UserRec, findUserByEmail s.users e'' = some u'' →
          u''.id ≠ m.user_id := by
      intro e'' he'' u'' hu'' hid
      have heq : e'' = e := hsameId e w hwfind e'' u'' hu'' (by rw [hid, hwspec.2])
      have hnexp' : ¬(e'' ∈ expected) := by
        have := List.of_mem_filter he''
        simpa [List.elem_iff] using this
      exact hnexp' (heq ▸ hee)
    have hfeqR := hUR m.user_id huR
    have hmf1 : m ∈ filterByUser m.user_id sa.memberships :=
      mem_filterByUser.mpr ⟨hmsa, rfl⟩
    rw [← hfeqR] at hmf1
    have hms1 : m ∈ s1'.memberships := (mem_filterByUser.mp hmf1).1
    have hact2 : isActiveAt m t2 = true :=
      active_later (fun e' he' hlt => hexp m hmem_s e' he' hlt) hact1.2.2
    exact (hl2c e).mpr ⟨m, List.mem_filter.mpr
      ⟨hms1, activeOwnerPred_iff.mpr ⟨hact1.1, hact1.2.1, hact2⟩⟩, w, hw, hwe⟩
  -- an expected email that was added by the pass is active afterwards
  have hF2 : ∀ e ∈ expected.dedup.filter (fun e => !(l1.dedup.contains e)),
      ∀ u : UserRec, findUserByEmail s.users e = some u → e ∈ l2 := by
    intro e he u hu
    rcases hG2A e he u hu with ⟨m', hm'sa, hid', hgid', hown', hdisj⟩
    have hue : u.email = e := (findUserByEmail_spec hu).2
    have hee : e ∈ expected := List.mem_dedup.mp (List.mem_of_mem_filter he)
    have huR : ∀ e'' ∈ l1.dedup.filter (fun e => !(expected.contains e)),
        ∀ u'' : UserRec, findUserByEmail s.users e'' = some u'' →
          u''.id ≠ u.id := by
      intro e'' he'' u'' hu'' hid
      have heq : e'' = e := hsameId e u hu e'' u'' hu'' hid
      have hnexp' : ¬(e'' ∈ expected) := by
        have := List.of_mem_filter he''
        simpa [List.elem_iff] using this
      exact hnexp' (heq ▸ hee)
    have hfeqR := hUR u.id huR
    have hmf1 : m' ∈ filterByUser u.id sa.memberships :=
      mem_filterByUser.mpr ⟨hm'sa, hid'⟩
    rw [← hfeqR] at hmf1
    have hms1 : m' ∈ s1'.memberships := (mem_filterByUser.mp hmf1).1
    have hact2 : isActiveAt m' t2 = true := by
      rcases hdisj with hnone | ⟨hmem', hact'⟩
      · exact isActive_of_none hnone t2
      · exact active_later (fun e' he' hlt => hexp m' hmem' e' he' hlt) hact'
    have hwfind2 : findUserById s.users m'.user_id = some u := by
      rw [hid']
      exact findUserById_of_mem hids u (findUserByEmail_spec hu).1
    exact (hl2c e).mpr ⟨m', List.mem_filter.mpr
      ⟨hms1, activeOwnerPred_iff.mpr ⟨hgid', hown', hact2⟩⟩, u, hwfind2, hue⟩
  -- every email active after the pass is expected
  have hF3 : ∀ e : String, e ∈ l2 → e ∈ expected := by
    intro e he2
    rcases (hl2c e).mp he2 with ⟨m, hmA2, w, hw, hwe⟩
    have hms1 : m ∈ s1'.memberships := List.mem_of_mem_filter hmA2
    have hact2 := activeOwnerPred_iff.mp (List.of_mem_filter hmA2)
    have hwspec := findUserById_spec hw
    rcases hG3R m hms1 with hmsa | ⟨m0, hm0, hEq⟩
    swap
    · exfalso
      rw [hEq] at hact2
      have hcontra := hact2.2.2
      rw [inactive_at_ending m0 t2 ht] at hcontra
      cases hcontra
    rcases hG3A m hmsa with hmem_s | ⟨hnone, hgid, hown, e', he', u', hu', hid⟩
    swap
    · have hwu : w = u' := id_inj hids w hwspec.1 u' (findUserByEmail_spec hu').1
        (by rw [hwspec.2, hid])
      have hee' : e = e' := by
        rw [← hwe, hwu]
        exact (findUserByEmail_spec hu').2
      rw [hee']
      exact List.mem_dedup.mp (List.mem_of_mem_filter he')
    · have hact1 : isActiveAt m t1 = true := active_earlier ht hact2.2.2
      have hmA1 : m ∈ s.memberships.filter (activeOwnerPred gid t1) :=
        List.mem_filter.mpr ⟨hmem_s,
          activeOwnerPred_iff.mpr ⟨hact2.1, hact2.2.1, hact1⟩⟩
      have he1 : e ∈ l1 := (hl1c e).mpr ⟨m, hmA1, w, hw, hwe⟩
      by_contra hnexp
      have herm : e ∈ l1.dedup.filter (fun e => !(expected.contains e)) :=
        List.mem_filter.mpr ⟨List.mem_dedup.mpr he1, by
          simp [List.elem_iff, hnexp]⟩
      have hwfind : findUserByEmail s.users e = some w := hfindOfById e w hwspec.1 hwe
      have huA : ∀ e' ∈ expected.dedup.filter (fun e => !(l1.dedup.contains e)),
          ∀ u' : UserRec, findUserByEmail s.users e' = some u' →
            u'.id ≠ m.user_id := by
        intro e' he' u' hu' hid'
        have heq : e' = e := hsameId e w hwfind e' u' hu' (by rw [hid', hwspec.2])
        have hnotl1 : ¬(e' ∈ l1.dedup) := by
          have := List.of_mem_filter he'
          simpa [List.elem_iff] using this
        exact hnotl1 (heq ▸ List.mem_dedup.mpr he1)
      have hfeqA := hUA m.user_id huA
      have hlen_s : (s.memberships.filter
          (activeOwnerRecPred gid m.user_id t1)).length ≤ 1 := by
        rw [filter_rec_outer]
        exact count_user_le_one huniq m.user_id
      have hlen_sa : (sa.memberships.filter
          (activeOwnerRecPred gid m.user_id t1)).length ≤ 1 := by
        rw [filter_rec_inner, hfeqA, ← filter_rec_inner]
        exact hlen_s
      have hfalse := hK2R e herm w hwfind
        (by rw [hwspec.2]; exact hlen_sa) m hms1 hwspec.2.symm hact2.1 hact2.2.1
      rw [hact1] at hfalse
      cases hfalse
  -- the second run makes no change
  have hrm2 : l2.dedup.filter (fun e => !(expected.contains e)) = [] := by
    rw [List.filter_eq_nil_iff]
    intro e he
    have := hF3 e (List.mem_dedup.mp he)
    simp [List.elem_iff, this]
  have had2 : ∀ e ∈ expected.dedup.filter (fun e => !(l2.dedup.contains e)),
      env.addFails e = false ∧ findUserByEmail s1'.users e = none := by
    intro e he
    refine ⟨(hdb e).1, ?_⟩
    rw [hus1]
    cases hfe : findUserByEmail s.users e with
    | none => rfl
    | some u =>
      exfalso
      have hee : e ∈ expected := List.mem_dedup.mp (List.mem_of_mem_filter he)
      have hnotl2 : ¬(e ∈ l2.dedup) := by
        have := List.of_mem_filter he
        simpa [List.elem_iff] using this
      by_cases h1e : e ∈ l1
      · exact hnotl2 (List.mem_dedup.mpr (hF1 e h1e hee))
      · have head : e ∈ expected.dedup.filter (fun e => !(l1.dedup.contains e)) :=
          List.mem_filter.mpr ⟨List.mem_dedup.mpr hee, by
            simp [List.elem_iff, List.mem_dedup]
            exact h1e⟩
        exact hnotl2 (List.mem_dedup.mpr (hF2 e head u hfe))
  have hl2' : emailsOf s1'.users
      (s1'.memberships.filter (activeOwnerPred gid t2)) = .ok l2 := by
    rw [hus1]
    exact hl2
  have hadd2 : goAdd env gid t2 s1'
      (expected.dedup.filter (fun e => !(l2.dedup.contains e))) = .ok (s1', 0) :=
    goAdd_noop _ s1' had2
  simp only [sync_group_owners, hl2', hadd2, hrm2, goRemove]

/-! ## Claim theorems -/

/-- C1: the claim says that a request passing the preconditions whose group has
no catalog entry evaluates rules 5-7 as disabled and returns a decision without
raising.  The code violates this: when rules 2-4 do not match, the chain
reaches elif yaml_service_non_sensitive_access_enabled with that local never
assigned (find_first_matching_service returned None), raising
UnboundLocalError.  This theorem evaluates the engine at such an input. -/
theorem missing_catalog_entry_raises :
    access_request_created c1Env c1Req "Payments-Admin" [] c1Requester =
      ⟨.error (.unboundLocal "yaml_service_non_sensitive_access_enabled"), []⟩ :=
  rfl

/-- C2: the claim says rule 7 (system_owners) is evaluated whenever rules 2-6
did not match, so this input (PagerDuty id resolved, no matching incident,
system_owners enabled and listing the requester) must be approved with the
system_owners reason.  The code instead returns no decision: the branch
elif pd_user_id: swallows the fall-through, so rule 7 is skipped whenever the
incident identity resolved.  The conjuncts show the Deferred outcome and that
the rule-7 condition holds at this input. -/
theorem pd_resolved_skips_system_owners :
    access_request_created c2Env c2Req "APP_AWS_SSO_PAYROLL" [] c2Requester =
      ⟨.ok none, []⟩ ∧
    c2Service.soEnabled = true ∧
    (expand_members c2Env c2Service.soGroups c2Service.soUsers).1 =
      .ok ["alice@example.com"] :=
  ⟨rfl, rfl, rfl⟩

/-- C9: for every access request whose request_reason is empty, the decision
engine returns the Deferred sentinel (None), with no rule evaluated and no
group dereferenced, whatever the environment. -/
theorem empty_reason_deferred (env : DecisionEnv) (req : AccessRequest)
    (gname : String) (tags : List String) (requester : Requester)
    (h : req.request_reason = "") :
    access_request_created env req gname tags requester = ⟨.ok none, []⟩ := by
  simp [access_request_created, h]

theorem empty_reason_deferred_witness :
    access_request_created
      ⟨⟨[], []⟩, fun _ => some "PD1", fun _ _ => ⟨[], []⟩, fun _ => none⟩
      ⟨false, "", none⟩ "Payments-Admin" ["AutoApprove"]
      ⟨"alice@example.com", ["Payments-Admin"]⟩ = ⟨.ok none, []⟩ :=
  empty_reason_deferred
    ⟨⟨[], []⟩, fun _ => some "PD1", fun _ _ => ⟨[], []⟩, fun _ => none⟩
    ⟨false, "", none⟩ "Payments-Admin" ["AutoApprove"]
    ⟨"alice@example.com", ["Payments-Admin"]⟩ rfl

/-- C3 counterexample: with the referenced owner-group ops-team absent from the
store, the pass raises AttributeError instead of treating its contribution as
the empty set and continuing. -/
theorem missing_ref_group_errors_concrete :
    sync_twingate_groups c3Env c3Store 0 c3Services =
      .error (.attributeErrorOnNone "active_user_memberships") :=
  rfl

/-- C3 (amended): a referenced owner-group absent from the membership store
makes the expected-owner computation raise AttributeError on None, aborting
the reconciliation pass, so the remaining groups of that entry and the
remaining entries are not processed; only a missing target group is skipped
gracefully, the pass continuing with the remaining entries. -/
theorem missing_ref_group_aborts_pass (env : SyncEnv) (s : Store) (now : Nat)
    (svc : TGService) (rest : List TGService) :
    ((∃ g ∈ svc.so_okta_groups, env.getGroupByName g = none) →
      sync_twingate_groups env s now (svc :: rest) =
        .error (.attributeErrorOnNone "active_user_memberships")) ∧
    (∀ owners : List String,
      expected_owner_emails env svc.so_okta_groups svc.so_okta_users = .ok owners →
      env.getGroupByName ("APP_TG_" ++ svc.hostname) = none →
      sync_twingate_groups env s now (svc :: rest) =
        sync_twingate_groups env s now rest) := by
  constructor
  · intro h
    have herr := memberListsOf_error svc.so_okta_groups h
    simp [sync_twingate_groups, expected_owner_emails, herr]
  · intro owners howners htarget
    simp [sync_twingate_groups, howners, htarget]

theorem missing_ref_group_aborts_pass_witness :
    sync_twingate_groups c3Env c3Store 0 c3Services =
      .error (.attributeErrorOnNone "active_user_memberships") ∧
    sync_twingate_groups c3SkipEnv c3Store 0 [⟨"billing.internal", ["ops-team"], []⟩] =
      sync_twingate_groups c3SkipEnv c3Store 0 [] := by
  constructor
  · exact (missing_ref_group_aborts_pass c3Env c3Store 0
      ⟨"billing.internal", ["ops-team"], []⟩ []).1 ⟨"ops-team", by simp, rfl⟩
  · exact (missing_ref_group_aborts_pass c3SkipEnv c3Store 0
      ⟨"billing.internal", ["ops-team"], []⟩ []).2 ["bob@example.com"] rfl rfl

/-- C4 counterexample: a store failure while adding one owner aborts the whole
synchronization with SQLAlchemyError instead of continuing with the remaining
owners. -/
theorem store_error_aborts_sync_concrete :
    sync_group_owners c4Db c4Store 7 ["alice@x.com"] 10 =
      .error .sqlAlchemyError :=
  rfl

/-- C4 (amended): a membership-store failure while adding one owner is logged
and re-raised: sync_group_owners propagates SQLAlchemyError, aborting the
pass, so the remaining owners of the group and the remaining catalog entries
are not processed. -/
theorem store_error_aborts_pass (env : DbEnv) (s : Store) (gid : Nat)
    (expected : List String) (now : Nat) (e : String) (aes : List String)
    (hEmails : emailsOf s.users
      (s.memberships.filter (activeOwnerPred gid now)) = .ok aes)
    (hMem : e ∈ expected) (hNot : e ∉ aes.dedup)
    (hFail : env.addFails e = true) :
    sync_group_owners env s gid expected now = .error .sqlAlchemyError := by
  have hmem : e ∈ expected.dedup.filter (fun x => !(aes.dedup.contains x)) :=
    List.mem_filter.mpr ⟨List.mem_dedup.mpr hMem, by simp [List.elem_iff, hNot]⟩
  have herr := @goAdd_error_of_fails env gid now
    (expected.dedup.filter (fun x => !(aes.dedup.contains x))) s ⟨e, hmem, hFail⟩
  simp only [sync_group_owners, hEmails, herr]

theorem store_error_aborts_pass_witness :
    sync_group_owners c4Db c4Store 7 ["bob@x.com", "alice@x.com"] 10 =
      .error .sqlAlchemyError :=
  store_error_aborts_pass c4Db c4Store 7 ["bob@x.com", "alice@x.com"] 10
    "alice@x.com" ["bob@x.com"] rfl (by decide) (by decide) rfl

/-- C5 counterexample: in the plugin client, a failed /users request for one
assignee of a matching incident raises UnboundLocalError out of
get_pd_user_email, aborting the whole incident lookup instead of removing only
that assignee from the set. -/
theorem plugin_email_failure_aborts_lookup :
    plugin_get_pd_user_incidents c5Env "U1" "billing" =
      .error (.unboundLocal "user_email") :=
  rfl

/-- C5 (amended): in the multipass client the assignee-email set is
de-duplicated across all matching incidents, and an element x, an email or the
None placeholder of a failed per-assignee resolution, is in the set exactly
when some assignee of a matching incident resolves to x; a per-assignee
failure therefore leaves that assignee's email out of the set without aborting
the lookup, while the plugin client raises instead (see the
counterexample). -/
theorem multipass_email_set_spec (env : PdEnv) (uid search : String) :
    (multipass_get_pd_user_incidents env uid search).all_combined_assignees_by_email.Nodup ∧
    ∀ x : Option String,
      x ∈ (multipass_get_pd_user_incidents env uid search).all_combined_assignees_by_email ↔
      ∃ inc ∈ ((env.incidents_http uid).getD []).filter (incidentMatches search),
        ∃ a ∈ inc.assignments, multipass_get_pd_user_email env a.id = x := by
  cases h : env.incidents_http uid with
  | none =>
    constructor
    · simp [multipass_get_pd_user_incidents, h]
    · intro x
      simp [multipass_get_pd_user_incidents, h]
  | some incs =>
    constructor
    · simp [multipass_get_pd_user_incidents, h, List.nodup_dedup]
    · intro x
      simp only [multipass_get_pd_user_incidents, h, Option.getD_some]
      rw [List.mem_dedup, List.mem_flatten]
      constructor
      · rintro ⟨l, hl, hx⟩
        rw [List.mem_map] at hl
        rcases hl with ⟨p, hp, hlp⟩
        rw [List.mem_map] at hp
        rcases hp with ⟨inc, hinc, hpi⟩
        subst hpi
        subst hlp
        simp only [multipass_parse_incident, List.mem_map] at hx
        rcases hx with ⟨a, ha, hax⟩
        exact ⟨inc, hinc, a, ha, hax⟩
      · rintro ⟨inc, hinc, a, ha, hax⟩
        refine ⟨(multipass_parse_incident env inc).incident_assignees_by_email,
          List.mem_map.mpr ⟨multipass_parse_incident env inc,
            List.mem_map.mpr ⟨inc, hinc, rfl⟩, rfl⟩, ?_⟩
        simp only [multipass_parse_incident, List.mem_map]
        exact ⟨a, ha, hax⟩

/-- C7: when a user holds a previously-ended owner record on the group (its
ended_at lies in the past) and is added again, add_owner_to_group reactivates
that record by clearing its ended_at and inserts no duplicate row: the
membership table keeps its length. -/
theorem add_owner_reactivates (env : DbEnv) (s : Store) (gid : Nat)
    (e : String) (now t : Nat) (u : UserRec) (m : MemberRec)
    (hFail : env.addFails e = false)
    (hUser : findUserByEmail s.users e = some u)
    (hFind : s.memberships.find? (ownerRecPred gid u.id) = some m)
    (hEnded : m.ended_at = some t) (hPast : t ≤ now) :
    add_owner_to_group env s gid e now =
      .ok (⟨s.users, setEnded none (ownerRecPred gid u.id) s.memberships⟩, true) ∧
    (setEnded none (ownerRecPred gid u.id) s.memberships).length =
      s.memberships.length := by
  have hact : isActiveAt m now = false := by
    simp only [isActiveAt, hEnded, decide_eq_false_iff_not]
    omega
  constructor
  · simp [add_owner_to_group, hFail, hUser, hFind, hact]
  · exact setEnded_length none _ s.memberships

theorem add_owner_reactivates_witness :
    add_owner_to_group c7Db c7Store 9 "dora@x.com" 10 =
      .ok (⟨c7Store.users, setEnded none (ownerRecPred 9 4) c7Store.memberships⟩,
        true) ∧
    (setEnded none (ownerRecPred 9 4) c7Store.memberships).length =
      c7Store.memberships.length :=
  add_owner_reactivates c7Db c7Store 9 "dora@x.com" 10 5 ⟨4, "dora@x.com"⟩
    ⟨4, 9, true, some 5⟩ rfl rfl rfl rfl (by decide)

/-- C8: APP_AWS_SSO_PAYROLL selects the aws family and returns the first entry,
in concatenated document-segment order, whose okta_group_mapping is exactly
APP_AWS_SSO_PAYROLL; APP_TG_billing.internal selects the twingate family and
returns the first entry whose hostname is exactly billing.internal, the
remainder of the underscore split limited to three tokens; an identifier with
an unrecognized prefix yields None without raising. -/
theorem find_first_matching_service_spec (c : Catalog) :
    (find_first_matching_service c "APP_AWS_SSO_PAYROLL" =
      ((c.aws_sso_file.map (·.servicesFor .aws_services)).flatten).find?
        (fun s => s.okta_group_mapping == some "APP_AWS_SSO_PAYROLL")) ∧
    (find_first_matching_service c "APP_TG_billing.internal" =
      ((c.twingate_file.map (·.servicesFor .twingate_services)).flatten).find?
        (fun s => s.hostname.getD "" == "billing.internal")) ∧
    (∀ t : String, pyStartsWith t "APP_AWS_SSO" = false →
      pyStartsWith t "APP_TG_" = false →
      find_first_matching_service c t = none) := by
  refine ⟨?_, ?_, ?_⟩
  · rw [show find_first_matching_service c "APP_AWS_SSO_PAYROLL" =
        findInDocs .aws_services "APP_AWS_SSO_PAYROLL" c.aws_sso_file from rfl,
      findInDocs_eq]
    rfl
  · rw [show find_first_matching_service c "APP_TG_billing.internal" =
        findInDocs .twingate_services "APP_TG_billing.internal" c.twingate_file
        from rfl,
      findInDocs_eq]
    congr 1
    funext s
    show (splitUnderscoreMax2Last "APP_TG_billing.internal" == s.hostname.getD "")
      = (s.hostname.getD "" == "billing.internal")
    rw [show splitUnderscoreMax2Last "APP_TG_billing.internal" = "billing.internal"
      from rfl]
    exact strBeqComm _ _
  · intro t h1 h2
    simp [find_first_matching_service, get_service_file_and_key, h1, h2]

theorem find_first_matching_service_spec_witness :
    find_first_matching_service c8Cat "APP_AWS_SSO_PAYROLL" = some c8PayrollSvc ∧
    find_first_matching_service c8Cat "APP_TG_billing.internal" = some c8BillingSvc ∧
    find_first_matching_service c8Cat "Payments-Admin" = none := by
  refine ⟨?_, ?_, ?_⟩
  · rw [(find_first_matching_service_spec c8Cat).1]
    rfl
  · rw [(find_first_matching_service_spec c8Cat).2.1]
    rfl
  · exact (find_first_matching_service_spec c8Cat).2.2 "Payments-Admin" rfl rfl

/-- C10: when the preconditions pass and the catalog matched an entry, the
engine dereferences through get_group_by_name exactly the groups of the
non_sensitive_access and system_owners blocks when their enabled flags are
true, and the emergency_access groups unconditionally, a second time when that
flag is true: so a group listed in a disabled emergency_access block is still
dereferenced, while disabled non_sensitive_access and system_owners blocks are
not expanded. -/
theorem engine_group_expansions (env : DecisionEnv) (req : AccessRequest)
    (gname : String) (tags : List String) (requester : Requester) (ys : Service)
    (hOwn : req.request_ownership = false)
    (hReason : req.request_reason ≠ "")
    (hFind : find_first_matching_service env.catalog gname = some ys)
    (hPn : ys.nsaEnabled = true →
      ∀ g ∈ ys.nsaGroups, (env.get_group_by_name g).isSome)
    (hPs : ys.soEnabled = true →
      ∀ g ∈ ys.soGroups, (env.get_group_by_name g).isSome)
    (hPe : ∀ g ∈ ys.eaGroups, (env.get_group_by_name g).isSome) :
    (access_request_created env req gname tags requester).group_lookups =
      (if ys.nsaEnabled then ys.nsaGroups else []) ++
      (if ys.soEnabled then ys.soGroups else []) ++
      ys.eaGroups ++
      (if ys.eaEnabled then ys.eaGroups else []) := by
  have hguard : (!req.request_ownership && (req.request_reason != "")) = true := by
    rw [hOwn]
    simp [bne_iff_ne, hReason]
  rcases expand_members_present ys.eaGroups ys.eaUsers hPe with ⟨lE, hlE⟩
  by_cases hn : ys.nsaEnabled = true
  · rcases expand_members_present ys.nsaGroups ys.nsaUsers (hPn hn) with ⟨lN, hlN⟩
    by_cases hs : ys.soEnabled = true
    · rcases expand_members_present ys.soGroups ys.soUsers (hPs hs) with ⟨lS, hlS⟩
      by_cases he : ys.eaEnabled = true
      · simp [access_request_created, hguard, hFind, gatherAndDecide,
          hn, hs, he, hlN, hlS, hlE]
      · simp [access_request_created, hguard, hFind, gatherAndDecide,
          hn, hs, he, hlN, hlS, hlE]
    · by_cases he : ys.eaEnabled = true
      · simp [access_request_created, hguard, hFind, gatherAndDecide,
          hn, hs, he, hlN, hlE]
      · simp [access_request_created, hguard, hFind, gatherAndDecide,
          hn, hs, he, hlN, hlE]
  · by_cases hs : ys.soEnabled = true
    · rcases expand_members_present ys.soGroups ys.soUsers (hPs hs) with ⟨lS, hlS⟩
      by_cases he : ys.eaEnabled = true
      · simp [access_request_created, hguard, hFind, gatherAndDecide,
          hn, hs, he, hlS, hlE]
      · simp [access_request_created, hguard, hFind, gatherAndDecide,
          hn, hs, he, hlS, hlE]
    · by_cases he : ys.eaEnabled = true
      · simp [access_request_created, hguard, hFind, gatherAndDecide,
          hn, hs, he, hlE]
      · simp [access_request_created, hguard, hFind, gatherAndDecide,
          hn, hs, he, hlE]

theorem engine_group_expansions_witness :
    (access_request_created c10Env c10Req "APP_AWS_SSO_DATA" []
      c10Requester).group_lookups =
      ["owners-group", "dangling-emergency-group"] := by
  have h := engine_group_expansions c10Env c10Req "APP_AWS_SSO_DATA" []
    c10Requester c10Service rfl (by decide) rfl (by decide) (by decide) (by decide)
  rw [h]
  rfl

theorem sync_group_owners_idempotent_witness :
    sync_group_owners c6Db c6Store 7 ["alice@x.com", "bob@x.com"] 10 =
      .ok (c6Store1, 1, 1) ∧
    sync_group_owners c6Db c6Store1 7 ["alice@x.com", "bob@x.com"] 20 =
      .ok (c6Store1, 0, 0) := by
  refine ⟨rfl, ?_⟩
  refine sync_group_owners_idempotent c6Db c6Store 7 ["alice@x.com", "bob@x.com"]
    10 20 c6Store1 1 1 (fun e => ⟨rfl, rfl⟩) (by unfold uniqueIds; decide)
    (by unfold uniqueEmails; decide) (by unfold resolvable; decide)
    (by unfold uniqueActiveOwner; decide) (by decide) ?_ rfl
  intro m hm e he h10
  fin_cases hm <;> simp_all <;> omega
